import Mathlib

/-!
# ArdunioOPCUA.c : serial framing, decoding and publication cycle

A shallow embedding of `readArduinoData` and `updateValuesCallback` from
`src/ArdunioOPCUA.c`.

* The static receive buffer `buffer[256]` is a list of 256 bytes and the static
  `bufferIndex` a natural number; both are threaded through every call.
* What the operating system answers in one call (`CreateFile` fails, `ReadFile`
  fails, or `ReadFile` stores some bytes) is a `PortEvent` given to the call.
* `strchr` and `sscanf` follow the C library: a string ends at its first NUL.
* The `%f` conversion itself (which characters form a number, and the binary
  rounding of its value) belongs to the C library and is a field of `FloatOps`,
  so that every general theorem holds for any conversion routine.  The instance
  `decimalOps` reads plain decimal literals and is used to evaluate examples.
* `printf` output and `UA_Server_writeValue` calls are returned as lists.
-/

namespace ArduinoOPCUA

/-- One `char` of the receive buffer, as its unsigned value. -/
abbrev Byte := Nat

/-- The bytes of an ASCII string literal. -/
def ascii (s : String) : List Byte := s.toList.map Char.toNat

/-- The character `{`, the start marker looked up by `strchr(buffer, '{')`. -/
def LBRACE : Byte := 123

/-- The character `}`, the end marker looked up by `strchr(buffer, '}')`. -/
def RBRACE : Byte := 125

/-- The terminator `'\0'`. -/
def NUL : Byte := 0

/-- The value of `sizeof(buffer)` for `static char buffer[256]`. -/
def sizeof_buffer : Nat := 256

/-- The persistent (static) variables of `readArduinoData`. -/
structure SerialState where
  buffer : List Byte
  bufferIndex : Nat
deriving DecidableEq, Repr

/-- Static storage is zero-initialised: 256 NUL bytes and `bufferIndex = 0`. -/
def SerialState.init : SerialState := ⟨List.replicate sizeof_buffer NUL, 0⟩

/-- The answer of the serial port during one call of `readArduinoData`. -/
inductive PortEvent where
  /-- `CreateFile` returns `INVALID_HANDLE_VALUE`. -/
  | openFails
  /-- `ReadFile` returns FALSE. -/
  | readFails
  /-- `ReadFile` returns TRUE after storing `bytes` (so `bytesRead = bytes.length`). -/
  | readOk (bytes : List Byte)
deriving DecidableEq, Repr

/-- The five `float *` output parameters of `readArduinoData`. -/
structure Outputs (F : Type) where
  temperature : F
  humidity : F
  accelX : F
  accelY : F
  accelZ : F
deriving DecidableEq, Repr

/-- The five output fields in parameter order. -/
def Outputs.toList {F : Type} (o : Outputs F) : List F :=
  [o.temperature, o.humidity, o.accelX, o.accelY, o.accelZ]

/-- The lines printed by `readArduinoData` and `updateValuesCallback`. -/
inductive Printed (F : Type) where
  /-- The line "Error opening serial port". -/
  | errorOpening
  /-- The line "Received data: %s" with the extracted text. -/
  | receivedData (text : List Byte)
  /-- The line "Parsed data - temperature: %f, ..." with the five values. -/
  | parsedData (temperature humidity accelX accelY accelZ : F)
  /-- The line "Error parsing data". -/
  | errorParsing
  /-- The line "Buffer overflow, resetting buffer". -/
  | bufferOverflow
  /-- The line "Error reading from serial port". -/
  | errorReading
  /-- The line "temperature: %f, humidity: %f, ..." of `updateValuesCallback`. -/
  | valuesRead (temperature humidity accelX accelY accelZ : F)
deriving DecidableEq, Repr

/-- The part of the C library that converts text to `float`: the literal `0.0`
and the `%f` conversion of `sscanf`, applied to input that is not empty and does
not start with white space; it gives the converted value and the unread rest of
the input, or `none` on a matching failure. -/
structure FloatOps (F : Type) where
  zero : F
  scanFloat : List Byte → Option (F × List Byte)

/-- The C function `strchr(s, c)` on the string starting at the head of the list:
the offset of the first `c`, searching no further than the first NUL. -/
def strchr : List Byte → Byte → Option Nat
  | [], _ => none
  | b :: bs, c =>
    if b = c then some 0
    else if b = NUL then none
    else (strchr bs c).map (· + 1)

/-- The C string stored at the head of the list: the bytes before the first NUL. -/
def cstr (l : List Byte) : List Byte := l.takeWhile (fun b => b != NUL)

/-- What `ReadFile(hSerial, buffer + pos, ..)` does to the buffer when it stores
`bytes`: they replace the bytes from offset `pos` on. -/
def storeAt (buffer : List Byte) (pos : Nat) (bytes : List Byte) : List Byte :=
  buffer.take pos ++ bytes ++ buffer.drop (pos + bytes.length)

/-- The C function `isspace` in the "C" locale. -/
def isspace (b : Byte) : Bool :=
  b == 32 || b == 9 || b == 10 || b == 11 || b == 12 || b == 13

/-- One directive of a `scanf` format. -/
inductive Directive where
  /-- An ordinary character, which must match the next input character. -/
  | lit (c : Byte)
  /-- The conversion `%f`. -/
  | float
deriving DecidableEq, Repr

/-- Splits a format made of ordinary characters and `%f` into its directives. -/
def parseFormat : List Byte → List Directive
  | [] => []
  | [c] => [.lit c]
  | c :: d :: rest =>
    if c = 37 ∧ d = 102 then .float :: parseFormat rest
    else .lit c :: parseFormat (d :: rest)

/-- The value `EOF` returned by `sscanf` on an input failure before the first
conversion. -/
def EOF : Int := -1

/-- What `sscanf` returns when it stops on an input failure. -/
def inputFailure {F : Type} (acc : List F) : Int :=
  if acc.isEmpty then EOF else (acc.length : Int)

/-- Executes the directives of a format on the input; `acc` holds the values
converted so far.  Gives the return value of `sscanf` and the converted values,
in the order of the pointer arguments that receive them. -/
def scanDirectives {F : Type} (L : FloatOps F) :
    List Directive → List Byte → List F → Int × List F
  | [], _, acc => ((acc.length : Int), acc)
  | .lit c :: ds, inp, acc =>
    match inp with
    | [] => (inputFailure acc, acc)
    | b :: rest =>
      if b = c then scanDirectives L ds rest acc else ((acc.length : Int), acc)
  | .float :: ds, inp, acc =>
    match inp.dropWhile isspace with
    | [] => (inputFailure acc, acc)
    | b :: rest =>
      match L.scanFloat (b :: rest) with
      | none => ((acc.length : Int), acc)
      | some (v, rest2) => scanDirectives L ds rest2 (acc ++ [v])

/-- The C function `sscanf(input, format, ...)` for formats of ordinary
characters and `%f`. -/
def sscanf {F : Type} (L : FloatOps F) (input format : List Byte) : Int × List F :=
  scanDirectives L (parseFormat format) input []

/-- The format string of the `sscanf` call in `readArduinoData`. -/
def FORMAT : List Byte :=
  ascii "\x7b\"temperature\":%f,\"humidity\":%f,\"accelX\":%f,\"accelY\":%f,\"accelZ\":%f\x7d"

/-- The stores `sscanf` makes through `temperature, humidity, accelX, accelY,
accelZ`: the k-th converted value goes to the k-th pointer, the others keep
their contents. -/
def assign {F : Type} (out : Outputs F) : List F → Outputs F
  | [] => out
  | [t] => ⟨t, out.humidity, out.accelX, out.accelY, out.accelZ⟩
  | [t, h] => ⟨t, h, out.accelX, out.accelY, out.accelZ⟩
  | [t, h, x] => ⟨t, h, x, out.accelY, out.accelZ⟩
  | [t, h, x, y] => ⟨t, h, x, y, out.accelZ⟩
  | t :: h :: x :: y :: z :: _ => ⟨t, h, x, y, z⟩

/-- The number of bytes requested from `ReadFile`:
`sizeof(buffer) - bufferIndex - 1`. -/
def bytesToRead (st : SerialState) : Nat := sizeof_buffer - st.bufferIndex - 1

/-- The result of one call of `readArduinoData`. -/
structure ReadResult (F : Type) where
  state : SerialState
  out : Outputs F
  printed : List (Printed F)

/-- The branch `else if (bufferIndex >= sizeof(buffer) - 1)` of
`readArduinoData`, reached when no frame was found. -/
def overflowCheck {F : Type} (buffer : List Byte) (bufferIndex : Nat)
    (out : Outputs F) : ReadResult F :=
  if bufferIndex ≥ sizeof_buffer - 1 then
    ⟨⟨buffer, 0⟩, out, [.bufferOverflow]⟩
  else
    ⟨⟨buffer, bufferIndex⟩, out, []⟩

/-- The branch taken when `start && end && end > start`: cut the string at
`end`, print it, parse it into the outputs and empty the buffer. -/
def parseFrame {F : Type} (L : FloatOps F) (buffer : List Byte) (start stop : Nat)
    (out : Outputs F) : ReadResult F :=
  let buffer := buffer.set stop NUL
  let text := cstr (buffer.drop start)
  let r := sscanf L text FORMAT
  let out := assign out r.2
  let line : Printed F :=
    if r.1 = 5 then
      .parsedData out.temperature out.humidity out.accelX out.accelY out.accelZ
    else .errorParsing
  ⟨⟨buffer, 0⟩, out, [.receivedData text, line]⟩

/-- The function `readArduinoData`. -/
def readArduinoData {F : Type} (L : FloatOps F) (st : SerialState) (out : Outputs F)
    (ev : PortEvent) : ReadResult F :=
  match ev with
  | .openFails => ⟨st, out, [.errorOpening]⟩
  | .readFails => ⟨st, out, [.errorReading]⟩
  | .readOk bytes =>
    let bufferIndex := st.bufferIndex + bytes.length
    let buffer := (storeAt st.buffer st.bufferIndex bytes).set bufferIndex NUL
    match strchr buffer LBRACE, strchr buffer RBRACE with
    | some start, some stop =>
      if stop > start then parseFrame L buffer start stop out
      else overflowCheck buffer bufferIndex out
    | _, _ => overflowCheck buffer bufferIndex out

/-- The result of one call of `updateValuesCallback`. -/
structure CycleResult (F : Type) where
  state : SerialState
  printed : List (Printed F)
  /-- The calls `UA_Server_writeValue(server, UA_NODEID_STRING(1, name), value)`
  in the order they are made. -/
  writes : List (String × F)

/-- The function `updateValuesCallback`: the publication cycle run by the
server timer. -/
def updateValuesCallback {F : Type} (L : FloatOps F) (st : SerialState)
    (ev : PortEvent) : CycleResult F :=
  let r := readArduinoData L st ⟨L.zero, L.zero, L.zero, L.zero, L.zero⟩ ev
  ⟨r.state,
    r.printed ++
      [.valuesRead r.out.temperature r.out.humidity r.out.accelX r.out.accelY r.out.accelZ],
    [("temperature", r.out.temperature),
     ("humidity", r.out.humidity),
     ("accelerationX", r.out.accelX),
     ("accelerationY", r.out.accelY),
     ("accelerationZ", r.out.accelZ)]⟩

/-- A port event the operating system can deliver in state `st`: `ReadFile`
stores at most the number of bytes it was asked for. -/
def admissible (st : SerialState) : PortEvent → Prop
  | .readOk bytes => bytes.length ≤ bytesToRead st
  | _ => True

instance (st : SerialState) (ev : PortEvent) : Decidable (admissible st ev) := by
  cases ev <;> unfold admissible <;> infer_instance

/-- The static state after one invocation of the timer callback. -/
def step {F : Type} (L : FloatOps F) (st : SerialState) (ev : PortEvent) : SerialState :=
  (updateValuesCallback L st ev).state

/-- The static state after a sequence of invocations. -/
def run {F : Type} (L : FloatOps F) : SerialState → List PortEvent → SerialState
  | st, [] => st
  | st, ev :: evs => run L (step L st ev) evs

/-- Every event of the sequence is admissible in the state it meets. -/
def admissibleRun {F : Type} (L : FloatOps F) : SerialState → List PortEvent → Prop
  | _, [] => True
  | st, ev :: evs => admissible st ev ∧ admissibleRun L (step L st ev) evs

/-- The lines printed by every invocation of a sequence, one list per invocation. -/
def printedRun {F : Type} (L : FloatOps F) :
    SerialState → List PortEvent → List (List (Printed F))
  | _, [] => []
  | st, ev :: evs => (updateValuesCallback L st ev).printed :: printedRun L (step L st ev) evs

/-- The C function `isdigit`. -/
def isdigit (b : Byte) : Bool := decide (48 ≤ b) && decide (b ≤ 57)

/-- An optional sign in front of the input. -/
def scanSign : List Byte → List Byte × List Byte
  | b :: rest => if b = 43 ∨ b = 45 then ([b], rest) else ([], b :: rest)
  | [] => ([], [])

/-- An optional exponent part `e`, optional sign, digits; left unread when no
digit follows. -/
def scanExponent : List Byte → List Byte × List Byte
  | b :: rest =>
    if b = 101 ∨ b = 69 then
      let s := scanSign rest
      let ds := s.2.takeWhile isdigit
      if ds.isEmpty then ([], b :: rest)
      else (b :: s.1 ++ ds, s.2.dropWhile isdigit)
    else ([], b :: rest)
  | [] => ([], [])

/-- A `%f` conversion for plain decimal literals (optional sign, digits with
an optional point, optional exponent), the decimal form of the subject
sequence of `strtod`.  The converted value is represented by the text
of the literal. -/
def scanDecimal (inp : List Byte) : Option (List Byte × List Byte) :=
  let s := scanSign inp
  let ip := s.2.takeWhile isdigit
  let r1 := s.2.dropWhile isdigit
  let fr : List Byte × List Byte :=
    match r1 with
    | b :: rest =>
      if b = 46 then (b :: rest.takeWhile isdigit, rest.dropWhile isdigit)
      else ([], b :: rest)
    | [] => ([], [])
  if ip.isEmpty ∧ fr.1.length ≤ 1 then none
  else
    let ex := scanExponent fr.2
    some (s.1 ++ ip ++ fr.1 ++ ex.1, ex.2)

/-- Decimal literals as the `float` operations; a value is the literal text it
was converted from, and `0.0` is the text "0.0". -/
def decimalOps : FloatOps (List Byte) := ⟨ascii "0.0", scanDecimal⟩

/-- The bytes the buffer holds once `ReadFile` has appended `bytes`: those
retained from earlier polls followed by the new ones. -/
def filled (st : SerialState) (bytes : List Byte) : List Byte :=
  st.buffer.take st.bufferIndex ++ bytes

/-- The buffer has its declared size and the fill-length leaves room for at
least one byte and the terminator. -/
def WellFormed (st : SerialState) : Prop :=
  st.buffer.length = sizeof_buffer ∧ st.bufferIndex ≤ sizeof_buffer - 2

/-- The whole buffer once `ReadFile` has appended `bytes` and the terminator
has been written behind them. -/
def terminated (st : SerialState) (bytes : List Byte) : List Byte :=
  filled st bytes ++ NUL :: st.buffer.drop (st.bufferIndex + bytes.length + 1)

/-- The text `{"temperature":` that must open a frame. -/
def KEY_temperature : List Byte := ascii "\x7b\"temperature\":"

/-- The text `,"humidity":` between the first and the second number. -/
def KEY_humidity : List Byte := ascii ",\"humidity\":"

/-- The text `,"accelX":` between the second and the third number. -/
def KEY_accelX : List Byte := ascii ",\"accelX\":"

/-- The text `,"accelY":` between the third and the fourth number. -/
def KEY_accelY : List Byte := ascii ",\"accelY\":"

/-- The text `,"accelZ":` between the fourth and the fifth number. -/
def KEY_accelZ : List Byte := ascii ",\"accelZ\":"

/-- The directive `%f` succeeds on `inp`: after white space is skipped the input
is not exhausted, and the conversion gives `v` and leaves `rest` unread. -/
def Converts {F : Type} (L : FloatOps F) (inp : List Byte) (v : F) (rest : List Byte) : Prop :=
  inp.dropWhile isspace ≠ [] ∧ L.scanFloat (inp.dropWhile isspace) = some (v, rest)

/-- The shape of a frame text on which all five conversions succeed, with the
converted values: the five keys in their order, each followed by a number; the
text `r5` after the fifth number is arbitrary. -/
def MatchesKeys {F : Type} (L : FloatOps F) (text : List Byte) (vals : List F) : Prop :=
  ∃ v1 v2 v3 v4 v5 i1 i2 i3 i4 i5 r5,
    vals = [v1, v2, v3, v4, v5] ∧
    text = KEY_temperature ++ i1 ∧
    Converts L i1 v1 (KEY_humidity ++ i2) ∧
    Converts L i2 v2 (KEY_accelX ++ i3) ∧
    Converts L i3 v3 (KEY_accelY ++ i4) ∧
    Converts L i4 v4 (KEY_accelZ ++ i5) ∧
    Converts L i5 v5 r5

/-- The bytes contain a `{` followed later by a `}`. -/
def HasPair (l : List Byte) : Prop :=
  ∃ i j : Nat, i < j ∧ l[i]? = some LBRACE ∧ l[j]? = some RBRACE

/-- The names of the five server variables, in the order they are written. -/
def nodeNames : List String :=
  ["temperature", "humidity", "accelerationX", "accelerationY", "accelerationZ"]

/-- The text `t` is a number of value `v`: it holds neither `}` nor NUL, and
`%f` converts exactly `t` to `v` when `t` is followed by the end of the string
or by a comma. -/
def IsNumber {F : Type} (L : FloatOps F) (t : List Byte) (v : F) : Prop :=
  (∀ b ∈ t, b ≠ RBRACE ∧ b ≠ NUL) ∧
  ∀ rest : List Byte, (rest = [] ∨ rest.head? = some 44) → Converts L (t ++ rest) v rest

/-- The wire record `{"temperature":t,"humidity":h,"accelX":x,"accelY":y,"accelZ":z}`
for five number texts. -/
def wireFrame (t h x y z : List Byte) : List Byte :=
  KEY_temperature ++ t ++ KEY_humidity ++ h ++ KEY_accelX ++ x ++ KEY_accelY ++ y
    ++ KEY_accelZ ++ z ++ [RBRACE]

/-- The retained bytes hold a `}` that has neither a `{` nor a NUL before it. -/
def StrayBrace (st : SerialState) : Prop :=
  ∃ pre post, st.buffer.take st.bufferIndex = pre ++ RBRACE :: post ∧
    ∀ b ∈ pre, b ≠ LBRACE ∧ b ≠ NUL

/-! ## The C string functions -/

theorem strchr_append_nul (a r : List Byte) (c : Byte) (hc : c ≠ NUL) :
    strchr (a ++ NUL :: r) c = strchr a c := by
  induction a with
  | nil => simp [strchr, Ne.symm hc]
  | cons b bs ih => simp [strchr, ih]

theorem strchr_first (pre post : List Byte) (c : Byte)
    (hpre : ∀ b ∈ pre, b ≠ c ∧ b ≠ NUL) :
    strchr (pre ++ c :: post) c = some pre.length := by
  induction pre with
  | nil => simp [strchr]
  | cons b bs ih =>
    have hb := hpre b (List.mem_cons_self _ _)
    have ih2 := ih (fun x hx => hpre x (List.mem_cons_of_mem _ hx))
    simp [strchr, hb.1, hb.2, ih2]

theorem strchr_some (l : List Byte) (c : Byte) (i : Nat) (h : strchr l c = some i) :
    l[i]? = some c ∧ ∀ j, j < i → ∃ b, l[j]? = some b ∧ b ≠ c ∧ b ≠ NUL := by
  induction l generalizing i with
  | nil => simp [strchr] at h
  | cons b bs ih =>
    unfold strchr at h
    by_cases hbc : b = c
    · rw [if_pos hbc] at h
      cases h
      simp [hbc]
    · rw [if_neg hbc] at h
      by_cases hb0 : b = NUL
      · rw [if_pos hb0] at h
        cases h
      · rw [if_neg hb0] at h
        cases hs : strchr bs c with
        | none => rw [hs] at h; cases h
        | some k =>
          rw [hs] at h
          cases h
          obtain ⟨h1, h2⟩ := ih k hs
          refine ⟨by simpa using h1, ?_⟩
          intro j hj
          have hj2 : j < k + 1 := hj
          cases j with
          | zero => exact ⟨b, by simp, hbc, hb0⟩
          | succ j => simpa using h2 j (by omega)

theorem cstr_append_nul (a r : List Byte) : cstr (a ++ NUL :: r) = cstr a := by
  induction a with
  | nil => simp [cstr, NUL]
  | cons b bs ih =>
    unfold cstr at ih ⊢
    by_cases hb : b = NUL
    · simp [hb, NUL]
    · have : (b != NUL) = true := by simpa using hb
      simp [List.takeWhile_cons, this, ih]

theorem cstr_of_no_nul (a r : List Byte) (h : ∀ b ∈ a, b ≠ NUL) :
    cstr (a ++ NUL :: r) = a := by
  induction a with
  | nil => simp [cstr, NUL]
  | cons b bs ih =>
    have hb := h b (List.mem_cons_self _ _)
    have ih2 := ih (fun x hx => h x (List.mem_cons_of_mem _ hx))
    unfold cstr at ih2 ⊢
    have : (b != NUL) = true := by simpa using hb
    simp [List.takeWhile_cons, this, ih2]

theorem set_length_append (a r : List Byte) (b x : Byte) :
    (a ++ b :: r).set a.length x = a ++ x :: r := by
  induction a with
  | nil => simp
  | cons c cs ih => simp [ih]

theorem drop_length_append (a r : List Byte) : (a ++ r).drop a.length = r := by
  simp

/-- The buffer after `ReadFile` stored `bytes` and the terminator was written. -/
theorem storeAt_set (buffer : List Byte) (pos : Nat) (bytes : List Byte)
    (h : pos + bytes.length < buffer.length) :
    (storeAt buffer pos bytes).set (pos + bytes.length) NUL
      = (buffer.take pos ++ bytes) ++ NUL :: buffer.drop (pos + bytes.length + 1) := by
  unfold storeAt
  have hlen : (buffer.take pos ++ bytes).length = pos + bytes.length := by
    simp; omega
  have hdrop : buffer.drop (pos + bytes.length)
      = buffer[pos + bytes.length] :: buffer.drop (pos + bytes.length + 1) := by
    simp
  have key := set_length_append (buffer.take pos ++ bytes)
    (buffer.drop (pos + bytes.length + 1)) buffer[pos + bytes.length] NUL
  rw [hlen] at key
  rw [hdrop]
  exact key

theorem storeAt_length (buffer : List Byte) (pos : Nat) (bytes : List Byte)
    (h : pos + bytes.length ≤ buffer.length) :
    (storeAt buffer pos bytes).length = buffer.length := by
  unfold storeAt
  simp
  omega

/-! ## One call of `readArduinoData` in terms of the filled region -/

theorem LBRACE_ne_NUL : LBRACE ≠ NUL := by decide

theorem RBRACE_ne_NUL : RBRACE ≠ NUL := by decide

theorem readOk_buffer (st : SerialState) (bytes : List Byte)
    (h : st.bufferIndex + bytes.length < st.buffer.length) :
    (storeAt st.buffer st.bufferIndex bytes).set (st.bufferIndex + bytes.length) NUL
      = terminated st bytes := by
  rw [storeAt_set _ _ _ h]
  rfl

theorem strchr_terminated (st : SerialState) (bytes : List Byte) (c : Byte)
    (hc : c ≠ NUL) : strchr (terminated st bytes) c = strchr (filled st bytes) c := by
  unfold terminated
  exact strchr_append_nul _ _ _ hc

/-- When the two searches do not give a start before an end, the call goes to
the overflow check. -/
theorem readOk_noframe {F : Type} (L : FloatOps F) (st : SerialState) (out : Outputs F)
    (bytes : List Byte) (h : st.bufferIndex + bytes.length < st.buffer.length)
    (hno : ∀ a b, strchr (filled st bytes) LBRACE = some a →
      strchr (filled st bytes) RBRACE = some b → ¬ b > a) :
    readArduinoData L st out (.readOk bytes)
      = overflowCheck (terminated st bytes) (st.bufferIndex + bytes.length) out := by
  simp only [readArduinoData]
  rw [readOk_buffer st bytes h, strchr_terminated _ _ _ LBRACE_ne_NUL,
    strchr_terminated _ _ _ RBRACE_ne_NUL]
  cases ha : strchr (filled st bytes) LBRACE with
  | none => rfl
  | some a =>
    cases hb : strchr (filled st bytes) RBRACE with
    | none => rfl
    | some b =>
      have := hno a b ha hb
      simp [this]

/-- When the searches give a start before an end, the frame is parsed. -/
theorem readOk_frame {F : Type} (L : FloatOps F) (st : SerialState) (out : Outputs F)
    (bytes : List Byte) (h : st.bufferIndex + bytes.length < st.buffer.length)
    (a b : Nat) (ha : strchr (filled st bytes) LBRACE = some a)
    (hb : strchr (filled st bytes) RBRACE = some b) (hab : b > a) :
    readArduinoData L st out (.readOk bytes)
      = parseFrame L (terminated st bytes) a b out := by
  simp only [readArduinoData]
  rw [readOk_buffer st bytes h, strchr_terminated _ _ _ LBRACE_ne_NUL,
    strchr_terminated _ _ _ RBRACE_ne_NUL, ha, hb]
  simp [hab]

/-- The text cut out of the buffer when the filled region is `pre`, an opening
brace, `body`, a closing brace and `post`. -/
theorem frame_text (pre body post tail : List Byte) (hbody : ∀ b ∈ body, b ≠ NUL) :
    cstr ((((pre ++ LBRACE :: body ++ RBRACE :: post) ++ NUL :: tail).set
      (pre.length + 1 + body.length) NUL).drop pre.length) = LBRACE :: body := by
  have e1 : (pre ++ LBRACE :: body ++ RBRACE :: post) ++ NUL :: tail
      = (pre ++ LBRACE :: body) ++ RBRACE :: (post ++ NUL :: tail) := by simp
  have e2 : pre.length + 1 + body.length = (pre ++ LBRACE :: body).length := by
    simp; omega
  rw [e1, e2, set_length_append]
  have e3 : (pre ++ LBRACE :: body) ++ NUL :: (post ++ NUL :: tail)
      = pre ++ ((LBRACE :: body) ++ NUL :: (post ++ NUL :: tail)) := by simp
  rw [e3, drop_length_append]
  apply cstr_of_no_nul
  intro b hb
  rcases List.mem_cons.1 hb with rfl | hb
  · exact LBRACE_ne_NUL
  · exact hbody b hb

/-- The positions the two searches find in a filled region of that shape. -/
theorem frame_positions (pre body post : List Byte)
    (hpre : ∀ b ∈ pre, b ≠ LBRACE ∧ b ≠ RBRACE ∧ b ≠ NUL)
    (hbody : ∀ b ∈ body, b ≠ RBRACE ∧ b ≠ NUL) :
    strchr (pre ++ LBRACE :: body ++ RBRACE :: post) LBRACE = some pre.length ∧
    strchr (pre ++ LBRACE :: body ++ RBRACE :: post) RBRACE
      = some (pre.length + 1 + body.length) := by
  constructor
  · have e : pre ++ LBRACE :: body ++ RBRACE :: post
        = pre ++ LBRACE :: (body ++ RBRACE :: post) := by simp
    rw [e]
    exact strchr_first pre _ LBRACE (fun b hb => ⟨(hpre b hb).1, (hpre b hb).2.2⟩)
  · have e : pre ++ LBRACE :: body ++ RBRACE :: post
        = (pre ++ LBRACE :: body) ++ RBRACE :: post := by simp
    have e2 : pre.length + 1 + body.length = (pre ++ LBRACE :: body).length := by
      simp; omega
    rw [e, e2]
    apply strchr_first
    intro b hb
    rcases List.mem_append.1 hb with hb | hb
    · exact ⟨(hpre b hb).2.1, (hpre b hb).2.2⟩
    · rcases List.mem_cons.1 hb with rfl | hb
      · exact ⟨by decide, by decide⟩
      · exact hbody b hb

/-- The whole effect of a call that finds a frame. -/
theorem readOk_extract {F : Type} (L : FloatOps F) (st : SerialState) (out : Outputs F)
    (bytes pre body post : List Byte)
    (h : st.bufferIndex + bytes.length < st.buffer.length)
    (hshape : filled st bytes = pre ++ LBRACE :: body ++ RBRACE :: post)
    (hpre : ∀ b ∈ pre, b ≠ LBRACE ∧ b ≠ RBRACE ∧ b ≠ NUL)
    (hbody : ∀ b ∈ body, b ≠ RBRACE ∧ b ≠ NUL) :
    readArduinoData L st out (.readOk bytes)
      = ⟨⟨(terminated st bytes).set (pre.length + 1 + body.length) NUL, 0⟩,
          assign out (sscanf L (LBRACE :: body) FORMAT).2,
          [.receivedData (LBRACE :: body),
            if (sscanf L (LBRACE :: body) FORMAT).1 = 5 then
              .parsedData (assign out (sscanf L (LBRACE :: body) FORMAT).2).temperature
                (assign out (sscanf L (LBRACE :: body) FORMAT).2).humidity
                (assign out (sscanf L (LBRACE :: body) FORMAT).2).accelX
                (assign out (sscanf L (LBRACE :: body) FORMAT).2).accelY
                (assign out (sscanf L (LBRACE :: body) FORMAT).2).accelZ
            else .errorParsing]⟩ := by
  obtain ⟨h1, h2⟩ := frame_positions pre body post hpre hbody
  rw [← hshape] at h1 h2
  rw [readOk_frame L st out bytes h _ _ h1 h2 (by omega)]
  have htext : cstr (((terminated st bytes).set (pre.length + 1 + body.length) NUL).drop
      pre.length) = LBRACE :: body := by
    unfold terminated
    rw [hshape]
    exact frame_text pre body post _ (fun b hb => (hbody b hb).2)
  simp only [parseFrame, htext]

/-! ## The `sscanf` call -/

theorem parseFormat_FORMAT :
    parseFormat FORMAT
      = KEY_temperature.map Directive.lit ++ Directive.float ::
        (KEY_humidity.map Directive.lit ++ Directive.float ::
        (KEY_accelX.map Directive.lit ++ Directive.float ::
        (KEY_accelY.map Directive.lit ++ Directive.float ::
        (KEY_accelZ.map Directive.lit ++ Directive.float :: [Directive.lit RBRACE])))) := by
  decide

/-- The return value and the values stored by any run of directives. -/
theorem scan_acc {F : Type} (L : FloatOps F) (ds : List Directive) :
    ∀ (inp : List Byte) (acc : List F), ∃ more,
      (scanDirectives L ds inp acc).2 = acc ++ more ∧
      more.length ≤ ds.count Directive.float ∧
      ((scanDirectives L ds inp acc).1 = ((acc ++ more).length : Int) ∨
        ((scanDirectives L ds inp acc).1 = EOF ∧ acc ++ more = [])) := by
  induction ds with
  | nil =>
    intro inp acc
    exact ⟨[], by simp [scanDirectives]⟩
  | cons d ds ih =>
    intro inp acc
    have hfail : ∀ r : Int × List F, r = (inputFailure acc, acc) → ∃ more,
        r.2 = acc ++ more ∧ more.length ≤ (d :: ds).count Directive.float ∧
        (r.1 = ((acc ++ more).length : Int) ∨ (r.1 = EOF ∧ acc ++ more = [])) := by
      rintro r rfl
      refine ⟨[], by simp, by simp, ?_⟩
      cases acc with
      | nil => right; simp [inputFailure]
      | cons a as => left; simp [inputFailure]
    have hstop : ∀ r : Int × List F, r = ((acc.length : Int), acc) → ∃ more,
        r.2 = acc ++ more ∧ more.length ≤ (d :: ds).count Directive.float ∧
        (r.1 = ((acc ++ more).length : Int) ∨ (r.1 = EOF ∧ acc ++ more = [])) := by
      rintro r rfl
      exact ⟨[], by simp, by simp, by simp⟩
    cases d with
    | lit c =>
      cases inp with
      | nil => exact hfail _ (by simp [scanDirectives])
      | cons b rest =>
        by_cases hbc : b = c
        · obtain ⟨more, h1, h2, h3⟩ := ih rest acc
          refine ⟨more, ?_, ?_, ?_⟩
          · simpa [scanDirectives, hbc] using h1
          · simpa using h2
          · simpa [scanDirectives, hbc] using h3
        · exact hstop _ (by simp [scanDirectives, hbc])
    | float =>
      cases hd : inp.dropWhile isspace with
      | nil => exact hfail _ (by simp [scanDirectives, hd])
      | cons b rest =>
        cases hs : L.scanFloat (b :: rest) with
        | none => exact hstop _ (by simp [scanDirectives, hd, hs])
        | some p =>
          obtain ⟨v, rest2⟩ := p
          obtain ⟨more, h1, h2, h3⟩ := ih rest2 (acc ++ [v])
          refine ⟨v :: more, ?_, ?_, ?_⟩
          · simpa [scanDirectives, hd, hs] using h1
          · simpa using h2
          · simpa [scanDirectives, hd, hs] using h3

/-- A run of ordinary characters either matches the head of the input or
stops the scan with nothing more stored. -/
theorem scan_lits {F : Type} (L : FloatOps F) (ks : List Byte) (ds : List Directive) :
    ∀ (inp : List Byte) (acc : List F),
      (∃ rest, inp = ks ++ rest ∧
        scanDirectives L (ks.map Directive.lit ++ ds) inp acc = scanDirectives L ds rest acc) ∨
      (scanDirectives L (ks.map Directive.lit ++ ds) inp acc).2 = acc := by
  induction ks with
  | nil => intro inp acc; left; exact ⟨inp, by simp⟩
  | cons k ks ih =>
    intro inp acc
    cases inp with
    | nil => right; simp [scanDirectives]
    | cons b rest =>
      by_cases hbk : b = k
      · rcases ih rest acc with ⟨r, hr, he⟩ | hstop
        · left
          exact ⟨r, by simp [hbk, hr], by simpa [scanDirectives, hbk] using he⟩
        · right
          simpa [scanDirectives, hbk] using hstop
      · right; simp [scanDirectives, hbk]

theorem scan_lits_match {F : Type} (L : FloatOps F) (ks : List Byte) (ds : List Directive)
    (rest : List Byte) (acc : List F) :
    scanDirectives L (ks.map Directive.lit ++ ds) (ks ++ rest) acc
      = scanDirectives L ds rest acc := by
  induction ks with
  | nil => simp
  | cons k ks ih => simpa [scanDirectives] using ih

/-- The directive `%f` either converts a number or stops the scan with nothing
more stored. -/
theorem scan_float {F : Type} (L : FloatOps F) (ds : List Directive) (inp : List Byte)
    (acc : List F) :
    (∃ v rest, Converts L inp v rest ∧
      scanDirectives L (Directive.float :: ds) inp acc
        = scanDirectives L ds rest (acc ++ [v])) ∨
    (scanDirectives L (Directive.float :: ds) inp acc).2 = acc := by
  cases hd : inp.dropWhile isspace with
  | nil => right; simp [scanDirectives, hd]
  | cons b rest =>
    cases hs : L.scanFloat (b :: rest) with
    | none => right; simp [scanDirectives, hd, hs]
    | some p =>
      obtain ⟨v, rest2⟩ := p
      left
      refine ⟨v, rest2, ⟨by simp [hd], by simp [hd, hs]⟩, by simp [scanDirectives, hd, hs]⟩

theorem scan_float_match {F : Type} (L : FloatOps F) (ds : List Directive) (inp : List Byte)
    (acc : List F) (v : F) (rest : List Byte) (h : Converts L inp v rest) :
    scanDirectives L (Directive.float :: ds) inp acc
      = scanDirectives L ds rest (acc ++ [v]) := by
  obtain ⟨h1, h2⟩ := h
  cases hd : inp.dropWhile isspace with
  | nil => exact absurd hd h1
  | cons b r =>
    rw [hd] at h2
    simp [scanDirectives, hd, h2]

theorem scan_last {F : Type} (L : FloatOps F) (inp : List Byte) (acc : List F)
    (hacc : acc ≠ []) :
    scanDirectives L [Directive.lit RBRACE] inp acc = ((acc.length : Int), acc) := by
  cases inp with
  | nil =>
    cases acc with
    | nil => exact absurd rfl hacc
    | cons a as => simp [scanDirectives, inputFailure]
  | cons b rest =>
    by_cases hb : b = RBRACE <;> simp [scanDirectives, hb]

/-- A text of the five-key shape is converted in full. -/
theorem sscanf_of_matches {F : Type} (L : FloatOps F) (text : List Byte) (vals : List F)
    (h : MatchesKeys L text vals) : sscanf L text FORMAT = (5, vals) := by
  obtain ⟨v1, v2, v3, v4, v5, i1, i2, i3, i4, i5, r5, rfl, rfl, c1, c2, c3, c4, c5⟩ := h
  unfold sscanf
  rw [parseFormat_FORMAT, scan_lits_match, scan_float_match L _ _ _ _ _ c1,
    scan_lits_match, scan_float_match L _ _ _ _ _ c2,
    scan_lits_match, scan_float_match L _ _ _ _ _ c3,
    scan_lits_match, scan_float_match L _ _ _ _ _ c4,
    scan_lits_match, scan_float_match L _ _ _ _ _ c5, scan_last L _ _ (by simp)]
  simp

/-- Five stored values can only come from a text of the five-key shape. -/
theorem matches_of_sscanf {F : Type} (L : FloatOps F) (text : List Byte)
    (h : (sscanf L text FORMAT).2.length = 5) :
    MatchesKeys L text (sscanf L text FORMAT).2 := by
  unfold sscanf at h ⊢
  rw [parseFormat_FORMAT] at h ⊢
  rcases scan_lits L KEY_temperature _ text [] with ⟨i1, rfl, e⟩ | hs
  swap
  · rw [hs] at h; simp at h
  rw [e] at h ⊢
  rcases scan_float L _ i1 [] with ⟨v1, r1, c1, e⟩ | hs
  swap
  · rw [hs] at h; simp at h
  rw [e] at h ⊢
  rcases scan_lits L KEY_humidity _ r1 ([] ++ [v1]) with ⟨i2, rfl, e⟩ | hs
  swap
  · rw [hs] at h; simp at h
  rw [e] at h ⊢
  rcases scan_float L _ i2 ([] ++ [v1]) with ⟨v2, r2, c2, e⟩ | hs
  swap
  · rw [hs] at h; simp at h
  rw [e] at h ⊢
  rcases scan_lits L KEY_accelX _ r2 ([] ++ [v1] ++ [v2]) with ⟨i3, rfl, e⟩ | hs
  swap
  · rw [hs] at h; simp at h
  rw [e] at h ⊢
  rcases scan_float L _ i3 ([] ++ [v1] ++ [v2]) with ⟨v3, r3, c3, e⟩ | hs
  swap
  · rw [hs] at h; simp at h
  rw [e] at h ⊢
  rcases scan_lits L KEY_accelY _ r3 ([] ++ [v1] ++ [v2] ++ [v3]) with ⟨i4, rfl, e⟩ | hs
  swap
  · rw [hs] at h; simp at h
  rw [e] at h ⊢
  rcases scan_float L _ i4 ([] ++ [v1] ++ [v2] ++ [v3]) with ⟨v4, r4, c4, e⟩ | hs
  swap
  · rw [hs] at h; simp at h
  rw [e] at h ⊢
  rcases scan_lits L KEY_accelZ _ r4 ([] ++ [v1] ++ [v2] ++ [v3] ++ [v4])
    with ⟨i5, rfl, e⟩ | hs
  swap
  · rw [hs] at h; simp at h
  rw [e] at h ⊢
  rcases scan_float L _ i5 ([] ++ [v1] ++ [v2] ++ [v3] ++ [v4]) with ⟨v5, r5, c5, e⟩ | hs
  swap
  · rw [hs] at h; simp at h
  rw [e, scan_last L _ _ (by simp)]
  exact ⟨v1, v2, v3, v4, v5, i1, i2, i3, i4, i5, r5, by simp, rfl, c1, c2, c3, c4, c5⟩

/-- The call in `readArduinoData` stores at most five values, and returns 5
exactly when it stored five. -/
theorem sscanf_FORMAT_count {F : Type} (L : FloatOps F) (text : List Byte) :
    (sscanf L text FORMAT).2.length ≤ 5 ∧
    ((sscanf L text FORMAT).1 = 5 ↔ (sscanf L text FORMAT).2.length = 5) := by
  unfold sscanf
  obtain ⟨more, h1, h2, h3⟩ := scan_acc L (parseFormat FORMAT) text []
  have hc : (parseFormat FORMAT).count Directive.float = 5 := by decide
  rw [hc] at h2
  rw [h1]
  simp only [List.nil_append] at h3 ⊢
  refine ⟨h2, ?_⟩
  rcases h3 with h3 | ⟨h3, h4⟩
  · rw [h3]; exact Int.natCast_inj (n := 5)
  · rw [h3, h4]; simp [EOF]

/-- The stores made through the five pointers, field by field. -/
theorem assign_toList {F : Type} (out : Outputs F) (vals : List F) (h : vals.length ≤ 5) :
    (assign out vals).toList = vals ++ out.toList.drop vals.length := by
  match vals, h with
  | [], _ => rfl
  | [_], _ => rfl
  | [_, _], _ => rfl
  | [_, _, _], _ => rfl
  | [_, _, _, _], _ => rfl
  | [_, _, _, _, _], _ => rfl
  | _ :: _ :: _ :: _ :: _ :: _ :: _, h => simp at h

/-! ## Invariant of the static state -/

theorem wf_init : WellFormed SerialState.init :=
  ⟨List.length_replicate _ _, by decide⟩

theorem readOk_room (st : SerialState) (bytes : List Byte) (hwf : WellFormed st)
    (hadm : admissible st (.readOk bytes)) :
    st.bufferIndex + bytes.length < st.buffer.length := by
  obtain ⟨h1, h2⟩ := hwf
  have h3 : bytes.length ≤ sizeof_buffer - st.bufferIndex - 1 := hadm
  simp only [sizeof_buffer] at h1 h2 h3
  omega

theorem terminated_length (st : SerialState) (bytes : List Byte)
    (h : st.bufferIndex + bytes.length < st.buffer.length) :
    (terminated st bytes).length = st.buffer.length := by
  simp [terminated, filled]
  omega

theorem terminated_take (st : SerialState) (bytes : List Byte)
    (h : st.bufferIndex + bytes.length < st.buffer.length) :
    (terminated st bytes).take (st.bufferIndex + bytes.length) = filled st bytes := by
  have hlen : (filled st bytes).length = st.bufferIndex + bytes.length := by
    simp [filled]; omega
  unfold terminated
  rw [← hlen]
  simp

/-- The two ways a call can continue after a successful read. -/
theorem readOk_cases {F : Type} (L : FloatOps F) (st : SerialState) (out : Outputs F)
    (bytes : List Byte) :
    (∃ a b, b > a ∧ readArduinoData L st out (.readOk bytes)
      = parseFrame L ((storeAt st.buffer st.bufferIndex bytes).set
          (st.bufferIndex + bytes.length) NUL) a b out) ∨
    readArduinoData L st out (.readOk bytes)
      = overflowCheck ((storeAt st.buffer st.bufferIndex bytes).set
          (st.bufferIndex + bytes.length) NUL) (st.bufferIndex + bytes.length) out := by
  simp only [readArduinoData]
  cases strchr ((storeAt st.buffer st.bufferIndex bytes).set
      (st.bufferIndex + bytes.length) NUL) LBRACE with
  | none => right; rfl
  | some a =>
    cases strchr ((storeAt st.buffer st.bufferIndex bytes).set
        (st.bufferIndex + bytes.length) NUL) RBRACE with
    | none => right; rfl
    | some b =>
      by_cases hab : b > a
      · left; exact ⟨a, b, hab, by simp [hab]⟩
      · right; simp [hab]

/-- The two outcomes of the overflow check. -/
theorem overflowCheck_cases {F : Type} (buffer : List Byte) (i : Nat) (out : Outputs F) :
    (i ≥ sizeof_buffer - 1 ∧
      overflowCheck buffer i out = ⟨⟨buffer, 0⟩, out, [.bufferOverflow]⟩) ∨
    (i < sizeof_buffer - 1 ∧ overflowCheck buffer i out = ⟨⟨buffer, i⟩, out, []⟩) := by
  unfold overflowCheck
  by_cases h : i ≥ sizeof_buffer - 1
  · left; exact ⟨h, by simp [h]⟩
  · right; exact ⟨by omega, by simp [h]⟩

/-- The static state does not depend on the contents of the output fields. -/
theorem state_indep {F : Type} (L : FloatOps F) (st : SerialState) (out out2 : Outputs F)
    (ev : PortEvent) :
    (readArduinoData L st out ev).state = (readArduinoData L st out2 ev).state := by
  cases ev with
  | openFails => rfl
  | readFails => rfl
  | readOk bytes =>
    simp only [readArduinoData]
    cases strchr ((storeAt st.buffer st.bufferIndex bytes).set
        (st.bufferIndex + bytes.length) NUL) LBRACE with
    | none => simp only [overflowCheck]; split <;> rfl
    | some a =>
      cases strchr ((storeAt st.buffer st.bufferIndex bytes).set
          (st.bufferIndex + bytes.length) NUL) RBRACE with
      | none => simp only [overflowCheck]; split <;> rfl
      | some b =>
        by_cases hab : b > a
        · simp [hab, parseFrame]
        · simp only [hab, if_false, overflowCheck]; split <;> rfl

theorem step_eq {F : Type} (L : FloatOps F) (st : SerialState) (out : Outputs F)
    (ev : PortEvent) : step L st ev = (readArduinoData L st out ev).state := by
  unfold step updateValuesCallback
  exact state_indep L st _ out ev

/-- After a successful read the buffer keeps its size, and either the
fill-length is back to 0, or nothing was printed or stored, the fill-length
grew by the bytes read and is still below 255. -/
theorem readOk_state {F : Type} (L : FloatOps F) (st : SerialState) (out : Outputs F)
    (bytes : List Byte) (h : st.bufferIndex + bytes.length < st.buffer.length) :
    (readArduinoData L st out (.readOk bytes)).state.buffer.length = st.buffer.length ∧
    ((readArduinoData L st out (.readOk bytes)).state.bufferIndex = 0 ∨
      ((readArduinoData L st out (.readOk bytes)).state
          = ⟨terminated st bytes, st.bufferIndex + bytes.length⟩ ∧
        st.bufferIndex + bytes.length < sizeof_buffer - 1 ∧
        (readArduinoData L st out (.readOk bytes)).printed = [] ∧
        (readArduinoData L st out (.readOk bytes)).out = out)) := by
  have hlen := terminated_length st bytes h
  rcases readOk_cases L st out bytes with ⟨a, b, -, e⟩ | e
  · rw [e, readOk_buffer st bytes h]
    simp [parseFrame, hlen]
  · rw [e, readOk_buffer st bytes h]
    rcases overflowCheck_cases (terminated st bytes) (st.bufferIndex + bytes.length) out
      with ⟨-, e2⟩ | ⟨hlt, e2⟩
    · rw [e2]; simp [hlen]
    · rw [e2]; exact ⟨hlen, Or.inr ⟨rfl, hlt, rfl, rfl⟩⟩

theorem step_wf {F : Type} (L : FloatOps F) (st : SerialState) (ev : PortEvent)
    (hwf : WellFormed st) (hadm : admissible st ev) : WellFormed (step L st ev) := by
  cases ev with
  | openFails => exact hwf
  | readFails => exact hwf
  | readOk bytes =>
    have hroom := readOk_room st bytes hwf hadm
    rw [step_eq L st ⟨L.zero, L.zero, L.zero, L.zero, L.zero⟩]
    obtain ⟨h1, h2⟩ := readOk_state L st ⟨L.zero, L.zero, L.zero, L.zero, L.zero⟩ bytes hroom
    refine ⟨h1.trans hwf.1, ?_⟩
    rcases h2 with h2 | ⟨h2, h3, -, -⟩
    · rw [h2]; exact Nat.zero_le _
    · rw [h2]
      simp only [sizeof_buffer] at h3 ⊢
      omega

theorem run_wf {F : Type} (L : FloatOps F) (evs : List PortEvent) :
    ∀ st, WellFormed st → admissibleRun L st evs → WellFormed (run L st evs) := by
  induction evs with
  | nil => intro st hwf _; exact hwf
  | cons ev evs ih =>
    intro st hwf hadm
    exact ih _ (step_wf L st ev hwf hadm.1) hadm.2

/-- A start found before an end is a pair of braces in the filled region. -/
theorem hasPair_of_strchr (l : List Byte) (a b : Nat) (ha : strchr l LBRACE = some a)
    (hb : strchr l RBRACE = some b) (hab : b > a) : HasPair l :=
  ⟨a, b, hab, (strchr_some l _ a ha).1, (strchr_some l _ b hb).1⟩

/-- The output fields change only in a call that prints the received text. -/
theorem out_unchanged {F : Type} (L : FloatOps F) (st : SerialState) (out : Outputs F)
    (ev : PortEvent)
    (h : ∀ text, Printed.receivedData text ∉ (readArduinoData L st out ev).printed) :
    (readArduinoData L st out ev).out = out := by
  cases ev with
  | openFails => rfl
  | readFails => rfl
  | readOk bytes =>
    rcases readOk_cases L st out bytes with ⟨a, b, -, e⟩ | e
    · rw [e] at h
      exact absurd (List.mem_cons_self _ _) (h _)
    · rw [e]
      rcases overflowCheck_cases ((storeAt st.buffer st.bufferIndex bytes).set
        (st.bufferIndex + bytes.length) NUL) (st.bufferIndex + bytes.length) out
        with ⟨-, e2⟩ | ⟨-, e2⟩ <;> rw [e2]

/-- The line with the parsed values shows the output fields. -/
theorem out_of_parsed {F : Type} (L : FloatOps F) (st : SerialState) (out : Outputs F)
    (ev : PortEvent) (t h x y z : F)
    (hp : Printed.parsedData t h x y z ∈ (readArduinoData L st out ev).printed) :
    (readArduinoData L st out ev).out = ⟨t, h, x, y, z⟩ := by
  cases ev with
  | openFails => simp [readArduinoData] at hp
  | readFails => simp [readArduinoData] at hp
  | readOk bytes =>
    rcases readOk_cases L st out bytes with ⟨a, b, -, e⟩ | e
    · rw [e] at hp ⊢
      simp only [parseFrame, List.mem_cons, List.mem_singleton, List.not_mem_nil,
        or_false] at hp ⊢
      rcases hp with hp | hp
      · cases hp
      · split at hp
        · cases hp; rfl
        · cases hp
    · rw [e] at hp
      rcases overflowCheck_cases ((storeAt st.buffer st.bufferIndex bytes).set
        (st.bufferIndex + bytes.length) NUL) (st.bufferIndex + bytes.length) out
        with ⟨-, e2⟩ | ⟨-, e2⟩ <;> rw [e2] at hp <;> simp at hp

/-! ## The claims -/

/-- C8: a call of `readArduinoData` in which opening the port fails, or in
which the read reports a failure, leaves the static state (fill-length and
buffer contents) and the five output fields as they were; it only prints the
error line. -/
theorem C8_failure_changes_nothing {F : Type} (L : FloatOps F) (st : SerialState)
    (out : Outputs F) :
    readArduinoData L st out .openFails = ⟨st, out, [.errorOpening]⟩ ∧
    readArduinoData L st out .readFails = ⟨st, out, [.errorReading]⟩ :=
  ⟨rfl, rfl⟩

/-- C9: after any sequence of invocations from the initial state in which each
read stores at most the bytes requested, the buffer still has 256 bytes and the
fill-length is at most 254; hence the next read requests between 1 and 255
bytes, and after any admissible append the fill-length is at most 255 and is an
index inside the buffer, where the terminator is written. -/
theorem C9_fill_length_bounded {F : Type} (L : FloatOps F) (evs : List PortEvent)
    (hadm : admissibleRun L SerialState.init evs) :
    (run L SerialState.init evs).buffer.length = 256 ∧
    (run L SerialState.init evs).bufferIndex ≤ 254 ∧
    1 ≤ bytesToRead (run L SerialState.init evs) ∧
    bytesToRead (run L SerialState.init evs) ≤ 255 ∧
    ∀ bytes : List Byte, bytes.length ≤ bytesToRead (run L SerialState.init evs) →
      (run L SerialState.init evs).bufferIndex + bytes.length ≤ 255 ∧
      (storeAt (run L SerialState.init evs).buffer
        (run L SerialState.init evs).bufferIndex bytes).length = 256 ∧
      (step L (run L SerialState.init evs) (.readOk bytes)).bufferIndex ≤ 254 := by
  have hwf := run_wf L evs SerialState.init wf_init hadm
  obtain ⟨h1, h2⟩ := hwf
  simp only [sizeof_buffer] at h1 h2
  refine ⟨h1, h2, ?_, ?_, ?_⟩
  · simp only [bytesToRead, sizeof_buffer]; omega
  · simp only [bytesToRead, sizeof_buffer]; omega
  · intro bytes hb
    have hstep := step_wf L _ (.readOk bytes) ⟨h1, h2⟩ hb
    simp only [bytesToRead, sizeof_buffer] at hb
    refine ⟨by omega, ?_, hstep.2⟩
    rw [storeAt_length _ _ _ (by omega)]
    exact h1

/-- C5: when, after any admissible sequence of polls from the initial state,
a read brings the fill-length to 255 and the filled region holds no `{`
followed later by a `}`, the call prints the overflow line and nothing else
(no frame is received or parsed), leaves the outputs alone and resets the
fill-length to 0. -/
theorem C5_overflow_resets {F : Type} (L : FloatOps F) (evs : List PortEvent)
    (bytes : List Byte) (out : Outputs F)
    (hadm : admissibleRun L SerialState.init evs)
    (hfull : (run L SerialState.init evs).bufferIndex + bytes.length = sizeof_buffer - 1)
    (hnopair : ¬ HasPair (filled (run L SerialState.init evs) bytes)) :
    (readArduinoData L (run L SerialState.init evs) out (.readOk bytes)).printed
      = [.bufferOverflow] ∧
    (readArduinoData L (run L SerialState.init evs) out (.readOk bytes)).state.bufferIndex = 0 ∧
    (readArduinoData L (run L SerialState.init evs) out (.readOk bytes)).out = out := by
  have hwf := run_wf L evs SerialState.init wf_init hadm
  have hroom : (run L SerialState.init evs).bufferIndex + bytes.length
      < (run L SerialState.init evs).buffer.length := by
    rw [hwf.1, hfull]; decide
  rw [readOk_noframe L _ out bytes hroom
    (fun a b ha hb hab => hnopair (hasPair_of_strchr _ a b ha hb hab))]
  rcases overflowCheck_cases (terminated (run L SerialState.init evs) bytes)
    ((run L SerialState.init evs).bufferIndex + bytes.length) out with ⟨-, e⟩ | ⟨hlt, -⟩
  · rw [e]; exact ⟨rfl, rfl, rfl⟩
  · omega

/-- C9 (witness): a partial frame, a failed read and the rest of the frame. -/
theorem C9_witness :
    (run decimalOps SerialState.init
      [.readOk (ascii "\x7b\"temperature\":1.0,\"hum"), .readFails]).bufferIndex ≤ 254 :=
  (C9_fill_length_bounded decimalOps
    [.readOk (ascii "\x7b\"temperature\":1.0,\"hum"), .readFails]
    (by simp only [admissibleRun]; decide)).2.1

theorem not_hasPair_of_no_lbrace (l : List Byte) (h : ∀ b ∈ l, b ≠ LBRACE) : ¬ HasPair l := by
  rintro ⟨i, j, -, hi, -⟩
  exact h _ (List.getElem?_mem hi) rfl

set_option maxRecDepth 100000 in
/-- C5 (witness): a stream of the letter `a` without any brace, of which a
first poll delivers 100 bytes and the next one 155 more. -/
theorem C5_witness :
    (readArduinoData decimalOps
      (run decimalOps SerialState.init [.readOk (List.replicate 100 97)])
      ⟨[], [], [], [], []⟩ (.readOk (List.replicate 155 97))).printed = [.bufferOverflow] :=
  (C5_overflow_resets decimalOps [.readOk (List.replicate 100 97)] (List.replicate 155 97)
    ⟨[], [], [], [], []⟩
    (by simp only [admissibleRun]; decide)
    (by decide)
    (not_hasPair_of_no_lbrace _ (by decide))).1

/-- C1 (as amended): every invocation of `updateValuesCallback` makes exactly
five `writeValue` calls, one per variable in the fixed order, whatever the
outcome of the read; when no frame was received (open or read failure,
overflow, no complete frame) all five written values are the initial 0.0, and
when the frame was parsed in full they are the five parsed values. -/
theorem C1_writes_on_every_cycle {F : Type} (L : FloatOps F) (st : SerialState)
    (ev : PortEvent) :
    (updateValuesCallback L st ev).writes.map Prod.fst = nodeNames ∧
    ((∀ text, Printed.receivedData text ∉ (updateValuesCallback L st ev).printed) →
      (updateValuesCallback L st ev).writes.map Prod.snd
        = [L.zero, L.zero, L.zero, L.zero, L.zero]) ∧
    (∀ t h x y z, Printed.parsedData t h x y z ∈ (updateValuesCallback L st ev).printed →
      (updateValuesCallback L st ev).writes.map Prod.snd = [t, h, x, y, z]) := by
  refine ⟨rfl, ?_, ?_⟩
  · intro hno
    have h := out_unchanged L st ⟨L.zero, L.zero, L.zero, L.zero, L.zero⟩ ev
      (fun text hm => hno text (List.mem_append_left _ hm))
    simp only [updateValuesCallback, List.map, h]
  · intro t h x y z hp
    have hp2 : Printed.parsedData t h x y z ∈ (readArduinoData L st
        ⟨L.zero, L.zero, L.zero, L.zero, L.zero⟩ ev).printed := by
      rcases List.mem_append.1 hp with hp | hp
      · exact hp
      · simp at hp
    have h := out_of_parsed L st ⟨L.zero, L.zero, L.zero, L.zero, L.zero⟩ ev t h x y z hp2
    simp only [updateValuesCallback, List.map, h]

/-- C1 (counterexample): an invocation in which the port cannot be opened
still makes the five `writeValue` calls, each with the value 0.0. -/
theorem C1_counterexample :
    (updateValuesCallback decimalOps SerialState.init .openFails).printed
      = [.errorOpening,
         .valuesRead (ascii "0.0") (ascii "0.0") (ascii "0.0") (ascii "0.0") (ascii "0.0")] ∧
    (updateValuesCallback decimalOps SerialState.init .openFails).writes
      = [("temperature", ascii "0.0"), ("humidity", ascii "0.0"),
         ("accelerationX", ascii "0.0"), ("accelerationY", ascii "0.0"),
         ("accelerationZ", ascii "0.0")] := by
  decide

/-- C2 (as amended): after any admissible sequence of polls, as soon as a read
makes the filled region consist of bytes `pre` without `{`, `}` or NUL, then
`{`, bytes `body` without `}` or NUL, then `}` (and anything behind it), the
call takes out exactly `{` followed by `body` (the `}` is overwritten by the
terminator) and leaves the fill-length at 0; this does not depend on whether
the text then decodes. -/
theorem C2_extracts_first_frame {F : Type} (L : FloatOps F) (evs : List PortEvent)
    (out : Outputs F) (bytes pre body post : List Byte)
    (hadm : admissibleRun L SerialState.init evs)
    (hread : admissible (run L SerialState.init evs) (.readOk bytes))
    (hshape : filled (run L SerialState.init evs) bytes
      = pre ++ LBRACE :: body ++ RBRACE :: post)
    (hpre : ∀ b ∈ pre, b ≠ LBRACE ∧ b ≠ RBRACE ∧ b ≠ NUL)
    (hbody : ∀ b ∈ body, b ≠ RBRACE ∧ b ≠ NUL) :
    (readArduinoData L (run L SerialState.init evs) out (.readOk bytes)).printed.head?
      = some (.receivedData (LBRACE :: body)) ∧
    (readArduinoData L (run L SerialState.init evs) out (.readOk bytes)).state.bufferIndex
      = 0 := by
  have hwf := run_wf L evs SerialState.init wf_init hadm
  rw [readOk_extract L _ out bytes pre body post (readOk_room _ bytes hwf hread)
    hshape hpre hbody]
  exact ⟨rfl, rfl⟩

set_option maxRecDepth 100000 in
/-- C2 (witness): the frame of scenario 2 arriving in two polls; the second
poll completes the pair and the whole frame is taken out. -/
theorem C2_witness :
    (readArduinoData decimalOps
      (run decimalOps SerialState.init [.readOk (ascii "\x7b\"temperature\":1.0,\"hum")])
      ⟨[], [], [], [], []⟩
      (.readOk (ascii
        "idity\":2.0,\"accelX\":3.0,\"accelY\":4.0,\"accelZ\":5.0\x7d"))).printed.head?
      = some (.receivedData (LBRACE :: ascii
        "\"temperature\":1.0,\"humidity\":2.0,\"accelX\":3.0,\"accelY\":4.0,\"accelZ\":5.0")) :=
  (C2_extracts_first_frame decimalOps [.readOk (ascii "\x7b\"temperature\":1.0,\"hum")]
    ⟨[], [], [], [], []⟩
    (ascii "idity\":2.0,\"accelX\":3.0,\"accelY\":4.0,\"accelZ\":5.0\x7d")
    []
    (ascii "\"temperature\":1.0,\"humidity\":2.0,\"accelX\":3.0,\"accelY\":4.0,\"accelZ\":5.0")
    []
    (by simp only [admissibleRun]; decide) (by decide) (by decide) (by decide) (by decide)).1

/-- C2 (counterexample): a stray `}` in front of a complete frame. The filled
region holds a `{` followed later by a `}`, yet nothing is taken out and the
fill-length stays at 77, the number of bytes read. -/
theorem C2_counterexample :
    HasPair (filled SerialState.init (ascii
      "\x7d\x7b\"temperature\":23.5,\"humidity\":40.0,\"accelX\":0.1,\"accelY\":-0.2,\"accelZ\":9.8\x7d")) ∧
    (readArduinoData decimalOps SerialState.init ⟨[], [], [], [], []⟩ (.readOk (ascii
      "\x7d\x7b\"temperature\":23.5,\"humidity\":40.0,\"accelX\":0.1,\"accelY\":-0.2,\"accelZ\":9.8\x7d"))).printed
      = [] ∧
    (readArduinoData decimalOps SerialState.init ⟨[], [], [], [], []⟩ (.readOk (ascii
      "\x7d\x7b\"temperature\":23.5,\"humidity\":40.0,\"accelX\":0.1,\"accelY\":-0.2,\"accelZ\":9.8\x7d"))).state.bufferIndex
      = 77 :=
  ⟨⟨1, 76, by decide, by decide, by decide⟩, by decide, by decide⟩

/-- C3 (as amended): when a frame is taken out and fewer than five conversions
succeed, the call prints the parse error and empties the buffer, but the
converted values have been stored: the first k output fields hold the k
converted values, only the remaining fields are as on entry, and the
publication cycle writes these values, with 0.0 in the remaining fields. -/
theorem C3_partial_frame_is_stored {F : Type} (L : FloatOps F) (evs : List PortEvent)
    (out : Outputs F) (bytes pre body post : List Byte)
    (hadm : admissibleRun L SerialState.init evs)
    (hread : admissible (run L SerialState.init evs) (.readOk bytes))
    (hshape : filled (run L SerialState.init evs) bytes
      = pre ++ LBRACE :: body ++ RBRACE :: post)
    (hpre : ∀ b ∈ pre, b ≠ LBRACE ∧ b ≠ RBRACE ∧ b ≠ NUL)
    (hbody : ∀ b ∈ body, b ≠ RBRACE ∧ b ≠ NUL)
    (hfew : (sscanf L (LBRACE :: body) FORMAT).1 ≠ 5) :
    (sscanf L (LBRACE :: body) FORMAT).2.length < 5 ∧
    (readArduinoData L (run L SerialState.init evs) out (.readOk bytes)).printed
      = [.receivedData (LBRACE :: body), .errorParsing] ∧
    (readArduinoData L (run L SerialState.init evs) out (.readOk bytes)).state.bufferIndex
      = 0 ∧
    (readArduinoData L (run L SerialState.init evs) out (.readOk bytes)).out.toList
      = (sscanf L (LBRACE :: body) FORMAT).2
        ++ out.toList.drop (sscanf L (LBRACE :: body) FORMAT).2.length ∧
    (updateValuesCallback L (run L SerialState.init evs) (.readOk bytes)).writes.map Prod.snd
      = (sscanf L (LBRACE :: body) FORMAT).2
        ++ (List.replicate 5 L.zero).drop (sscanf L (LBRACE :: body) FORMAT).2.length := by
  have hwf := run_wf L evs SerialState.init wf_init hadm
  have hroom := readOk_room _ bytes hwf hread
  obtain ⟨hle, hiff⟩ := sscanf_FORMAT_count L (LBRACE :: body)
  have hlt : (sscanf L (LBRACE :: body) FORMAT).2.length < 5 :=
    lt_of_le_of_ne hle (fun h => hfew (hiff.2 h))
  refine ⟨hlt, ?_, ?_, ?_, ?_⟩
  · rw [readOk_extract L _ out bytes pre body post hroom hshape hpre hbody]
    simp [hfew]
  · rw [readOk_extract L _ out bytes pre body post hroom hshape hpre hbody]
  · rw [readOk_extract L _ out bytes pre body post hroom hshape hpre hbody]
    exact assign_toList out _ hle
  · have h := assign_toList ⟨L.zero, L.zero, L.zero, L.zero, L.zero⟩
      (sscanf L (LBRACE :: body) FORMAT).2 hle
    simp only [updateValuesCallback]
    rw [readOk_extract L _ _ bytes pre body post hroom hshape hpre hbody]
    simpa [Outputs.toList] using h

/-- C3 (witness): the frame `{"temperature":1.0}` preceded by a line break;
one value is stored and four fields keep their contents. -/
theorem C3_witness :
    (readArduinoData decimalOps (run decimalOps SerialState.init [])
      ⟨ascii "9", ascii "8", ascii "7", ascii "6", ascii "5"⟩
      (.readOk (ascii "\r\n\x7b\"temperature\":1.0\x7d"))).out.toList
      = (sscanf decimalOps (LBRACE :: ascii "\"temperature\":1.0") FORMAT).2
        ++ (Outputs.toList ⟨ascii "9", ascii "8", ascii "7", ascii "6", ascii "5"⟩).drop
          (sscanf decimalOps (LBRACE :: ascii "\"temperature\":1.0") FORMAT).2.length :=
  (C3_partial_frame_is_stored decimalOps []
    ⟨ascii "9", ascii "8", ascii "7", ascii "6", ascii "5"⟩
    (ascii "\r\n\x7b\"temperature\":1.0\x7d") (ascii "\r\n")
    (ascii "\"temperature\":1.0") []
    trivial (by decide) (by decide) (by decide) (by decide) (by decide)).2.2.2.1

/-- C3 (counterexample): the frame `{"temperature":1.0}` on an empty buffer.
One conversion succeeds, the parse error is printed, and the temperature
field has changed from 0.0 to 1.0, which the cycle then writes to the server. -/
theorem C3_counterexample :
    (readArduinoData decimalOps SerialState.init
      ⟨ascii "0.0", ascii "0.0", ascii "0.0", ascii "0.0", ascii "0.0"⟩
      (.readOk (ascii "\x7b\"temperature\":1.0\x7d"))).printed
      = [.receivedData (ascii "\x7b\"temperature\":1.0"), .errorParsing] ∧
    (readArduinoData decimalOps SerialState.init
      ⟨ascii "0.0", ascii "0.0", ascii "0.0", ascii "0.0", ascii "0.0"⟩
      (.readOk (ascii "\x7b\"temperature\":1.0\x7d"))).out
      = ⟨ascii "1.0", ascii "0.0", ascii "0.0", ascii "0.0", ascii "0.0"⟩ ∧
    (updateValuesCallback decimalOps SerialState.init
      (.readOk (ascii "\x7b\"temperature\":1.0\x7d"))).writes
      = [("temperature", ascii "1.0"), ("humidity", ascii "0.0"),
         ("accelerationX", ascii "0.0"), ("accelerationY", ascii "0.0"),
         ("accelerationZ", ascii "0.0")] := by
  decide

/-- C4 (as amended): for every frame taken out of the buffer, the five
conversions succeed exactly when the text from `{` up to the closing `}`
begins with `{"temperature":`, a number, `,"humidity":`, a number,
`,"accelX":`, a number, `,"accelY":`, a number, `,"accelZ":` and a number (each
number may have white space in front); the parsed line then shows these five
values. Whatever follows the fifth number is not looked at. In every other case
(keys in another order, a key missing, a value that is no number) the parse
error is printed. -/
theorem C4_decoder_accepts_key_shape {F : Type} (L : FloatOps F) (evs : List PortEvent)
    (out : Outputs F) (bytes pre body post : List Byte)
    (hadm : admissibleRun L SerialState.init evs)
    (hread : admissible (run L SerialState.init evs) (.readOk bytes))
    (hshape : filled (run L SerialState.init evs) bytes
      = pre ++ LBRACE :: body ++ RBRACE :: post)
    (hpre : ∀ b ∈ pre, b ≠ LBRACE ∧ b ≠ RBRACE ∧ b ≠ NUL)
    (hbody : ∀ b ∈ body, b ≠ RBRACE ∧ b ≠ NUL) :
    ((sscanf L (LBRACE :: body) FORMAT).1 = 5 ↔
      ∃ vals, MatchesKeys L (LBRACE :: body) vals) ∧
    ((∃ t h x y z, MatchesKeys L (LBRACE :: body) [t, h, x, y, z] ∧
        (readArduinoData L (run L SerialState.init evs) out (.readOk bytes)).printed
          = [.receivedData (LBRACE :: body), .parsedData t h x y z] ∧
        (readArduinoData L (run L SerialState.init evs) out (.readOk bytes)).out
          = ⟨t, h, x, y, z⟩) ∨
      ((¬ ∃ vals, MatchesKeys L (LBRACE :: body) vals) ∧
        (readArduinoData L (run L SerialState.init evs) out (.readOk bytes)).printed
          = [.receivedData (LBRACE :: body), .errorParsing])) := by
  have hwf := run_wf L evs SerialState.init wf_init hadm
  have hroom := readOk_room _ bytes hwf hread
  obtain ⟨-, hiff⟩ := sscanf_FORMAT_count L (LBRACE :: body)
  have hkey : (sscanf L (LBRACE :: body) FORMAT).1 = 5 ↔
      ∃ vals, MatchesKeys L (LBRACE :: body) vals := by
    constructor
    · intro h5
      exact ⟨_, matches_of_sscanf L _ (hiff.1 h5)⟩
    · rintro ⟨vals, hm⟩
      rw [sscanf_of_matches L _ vals hm]
  refine ⟨hkey, ?_⟩
  rw [readOk_extract L _ out bytes pre body post hroom hshape hpre hbody]
  by_cases h5 : (sscanf L (LBRACE :: body) FORMAT).1 = 5
  · left
    have hm := matches_of_sscanf L _ (hiff.1 h5)
    obtain ⟨v1, v2, v3, v4, v5, i1, i2, i3, i4, i5, r5, hv, hrest⟩ := hm
    refine ⟨v1, v2, v3, v4, v5, ⟨v1, v2, v3, v4, v5, i1, i2, i3, i4, i5, r5, rfl, hrest⟩, ?_⟩
    simp [h5, hv, assign]
  · right
    exact ⟨fun hm => h5 (hkey.2 hm), by simp [h5]⟩

/-- C4 (witness): the frame of scenario 1 is of the accepted shape. -/
theorem C4_witness :
    (sscanf decimalOps (LBRACE :: ascii
      "\"temperature\":23.5,\"humidity\":40.0,\"accelX\":0.1,\"accelY\":-0.2,\"accelZ\":9.8")
      FORMAT).1 = 5 ↔
    ∃ vals, MatchesKeys decimalOps (LBRACE :: ascii
      "\"temperature\":23.5,\"humidity\":40.0,\"accelX\":0.1,\"accelY\":-0.2,\"accelZ\":9.8")
      vals :=
  (C4_decoder_accepts_key_shape decimalOps [] ⟨[], [], [], [], []⟩
    (ascii
      "\x7b\"temperature\":23.5,\"humidity\":40.0,\"accelX\":0.1,\"accelY\":-0.2,\"accelZ\":9.8\x7d")
    []
    (ascii
      "\"temperature\":23.5,\"humidity\":40.0,\"accelX\":0.1,\"accelY\":-0.2,\"accelZ\":9.8")
    [] trivial (by decide) (by decide) (by decide) (by decide)).1

/-- C4 (counterexample): a frame with a sixth member after the fifth number.
All five conversions succeed and the parsed line is printed, although the text
between the braces is not exactly the five-field record. -/
theorem C4_counterexample :
    (readArduinoData decimalOps SerialState.init ⟨[], [], [], [], []⟩
      (.readOk (ascii
        "\x7b\"temperature\":1,\"humidity\":2,\"accelX\":3,\"accelY\":4,\"accelZ\":5,\"extra\":6\x7d"))).printed
      = [.receivedData (ascii
          "\x7b\"temperature\":1,\"humidity\":2,\"accelX\":3,\"accelY\":4,\"accelZ\":5,\"extra\":6"),
         .parsedData (ascii "1") (ascii "2") (ascii "3") (ascii "4") (ascii "5")] := by
  decide

/-- A read that brings no closing brace into an empty buffer and does not
fill it is only accumulated. -/
theorem readOk_accumulates {F : Type} (L : FloatOps F) (st : SerialState) (out : Outputs F)
    (p : List Byte) (hwf : WellFormed st) (hempty : st.bufferIndex = 0)
    (hp : ∀ b ∈ p, b ≠ RBRACE) (hlen : p.length < sizeof_buffer - 1) :
    readArduinoData L st out (.readOk p) = ⟨⟨terminated st p, p.length⟩, out, []⟩ := by
  have hroom : st.bufferIndex + p.length < st.buffer.length := by
    rw [hwf.1, hempty]; simp only [sizeof_buffer] at hlen ⊢; omega
  have hfilled : filled st p = p := by simp [filled, hempty]
  rw [readOk_noframe L st out p hroom]
  · rcases overflowCheck_cases (terminated st p) (st.bufferIndex + p.length) out
      with ⟨hge, -⟩ | ⟨-, e⟩
    · rw [hempty] at hge; omega
    · rw [e, hempty, Nat.zero_add]
  · intro a b _ hb _
    rw [hfilled] at hb
    exact hp _ (List.getElem?_mem (strchr_some p _ b hb).1) rfl

/-- C6: a frame `{` body `}` of at most 254 bytes (the body without `}` and
NUL) is delivered to an empty buffer as a first part `p` and a non-empty rest
`q` (so `p` is a proper part of the frame; it need not even be non-empty). The
first poll prints nothing, leaves the outputs alone and keeps
exactly `p` (fill-length `p.length`); the second poll is admissible, takes out
the whole frame, gives the same output fields and printed lines as the frame
delivered in one poll, and leaves the fill-length at 0. -/
theorem C6_split_frame_accumulates {F : Type} (L : FloatOps F) (st : SerialState)
    (out out2 : Outputs F) (body p q : List Byte)
    (hwf : WellFormed st) (hempty : st.bufferIndex = 0)
    (hbody : ∀ b ∈ body, b ≠ RBRACE ∧ b ≠ NUL)
    (hsplit : p ++ q = LBRACE :: body ++ [RBRACE])
    (hq : q ≠ [])
    (hlen : (LBRACE :: body ++ [RBRACE]).length ≤ 254) :
    (readArduinoData L st out (.readOk p)).printed = [] ∧
    (readArduinoData L st out (.readOk p)).out = out ∧
    (readArduinoData L st out (.readOk p)).state.bufferIndex = p.length ∧
    (readArduinoData L st out (.readOk p)).state.buffer.take p.length = p ∧
    admissible (step L st (.readOk p)) (.readOk q) ∧
    (readArduinoData L (step L st (.readOk p)) out2 (.readOk q)).printed.head?
      = some (.receivedData (LBRACE :: body)) ∧
    (readArduinoData L (step L st (.readOk p)) out2 (.readOk q)).printed
      = (readArduinoData L st out2 (.readOk (LBRACE :: body ++ [RBRACE]))).printed ∧
    (readArduinoData L (step L st (.readOk p)) out2 (.readOk q)).out
      = (readArduinoData L st out2 (.readOk (LBRACE :: body ++ [RBRACE]))).out ∧
    (readArduinoData L (step L st (.readOk p)) out2 (.readOk q)).state.bufferIndex = 0 := by
  -- the rest `q` ends with the closing brace, so `p` lies inside `{` body
  obtain ⟨q1, c, rfl⟩ : ∃ q1 c, q = q1 ++ [c] := by
    rcases List.eq_nil_or_concat q with h | ⟨q1, c, h⟩
    · exact absurd h hq
    · exact ⟨q1, c, by simpa using h⟩
  have hsplit2 : (p ++ q1) ++ [c] = (LBRACE :: body) ++ [RBRACE] := by
    simpa using hsplit
  obtain ⟨hpq, hc⟩ := List.append_inj' hsplit2 rfl
  have hpmem : ∀ b ∈ p, b ≠ RBRACE := by
    intro b hb
    have hb2 : b ∈ LBRACE :: body := by
      rw [← hpq]; exact List.mem_append_left _ hb
    rcases List.mem_cons.1 hb2 with rfl | hb3
    · decide
    · exact (hbody b hb3).1
  have hlens : p.length + (q1 ++ [c]).length = (LBRACE :: body ++ [RBRACE]).length := by
    rw [← hsplit]; simp
  have hplen : p.length < sizeof_buffer - 1 := by
    simp only [sizeof_buffer]
    simp at hlens hlen
    omega
  have hroom1 : st.bufferIndex + p.length < st.buffer.length := by
    rw [hwf.1, hempty]; simp only [sizeof_buffer] at hplen ⊢; omega
  have e1 := readOk_accumulates L st out p hwf hempty hpmem hplen
  have hstep : step L st (.readOk p) = ⟨terminated st p, p.length⟩ := by
    rw [step_eq L st out, e1]
  have htake : (terminated st p).take p.length = p := by
    have := terminated_take st p hroom1
    rw [hempty, Nat.zero_add] at this
    rw [this]; simp [filled, hempty]
  have hlenT : (terminated st p).length = sizeof_buffer := by
    rw [terminated_length st p hroom1, hwf.1]
  -- the second poll
  have hroom2 : (step L st (.readOk p)).bufferIndex + (q1 ++ [c]).length
      < (step L st (.readOk p)).buffer.length := by
    rw [hstep]; simp only []
    rw [hlenT, hlens]; simp only [sizeof_buffer]; omega
  have hadm2 : admissible (step L st (.readOk p)) (.readOk (q1 ++ [c])) := by
    rw [hstep]
    show (q1 ++ [c]).length ≤ sizeof_buffer - p.length - 1
    simp only [sizeof_buffer]; omega
  have hshape2 : filled (step L st (.readOk p)) (q1 ++ [c])
      = [] ++ LBRACE :: body ++ RBRACE :: [] := by
    rw [hstep]; simp only [filled]
    rw [htake, hsplit]; simp
  have hroom3 : st.bufferIndex + (LBRACE :: body ++ [RBRACE]).length < st.buffer.length := by
    rw [hwf.1, hempty]; simp only [sizeof_buffer]; omega
  have hshape3 : filled st (LBRACE :: body ++ [RBRACE])
      = [] ++ LBRACE :: body ++ RBRACE :: [] := by
    simp [filled, hempty]
  have hnil : ∀ b ∈ ([] : List Byte), b ≠ LBRACE ∧ b ≠ RBRACE ∧ b ≠ NUL := by
    intro b hb; cases hb
  have e2 := readOk_extract L (step L st (.readOk p)) out2 (q1 ++ [c]) [] body [] hroom2
    hshape2 hnil hbody
  have e3 := readOk_extract L st out2 (LBRACE :: body ++ [RBRACE]) [] body [] hroom3
    hshape3 hnil hbody
  refine ⟨?_, ?_, ?_, ?_, hadm2, ?_, ?_, ?_, ?_⟩
  · rw [e1]
  · rw [e1]
  · rw [e1]
  · rw [e1]; exact htake
  · rw [e2]; rfl
  · rw [e2, e3]
  · rw [e2, e3]
  · rw [e2]

set_option maxRecDepth 100000 in
/-- C6 (witness): scenario 2, the frame split after `"hum`. -/
theorem C6_witness :
    (readArduinoData decimalOps SerialState.init ⟨[], [], [], [], []⟩
      (.readOk (ascii "\x7b\"temperature\":1.0,\"hum"))).printed = [] ∧
    (readArduinoData decimalOps
      (step decimalOps SerialState.init (.readOk (ascii "\x7b\"temperature\":1.0,\"hum")))
      ⟨[], [], [], [], []⟩
      (.readOk (ascii
        "idity\":2.0,\"accelX\":3.0,\"accelY\":4.0,\"accelZ\":5.0\x7d"))).out
      = ⟨ascii "1.0", ascii "2.0", ascii "3.0", ascii "4.0", ascii "5.0"⟩ :=
  have h := C6_split_frame_accumulates decimalOps SerialState.init
    ⟨[], [], [], [], []⟩ ⟨[], [], [], [], []⟩
    (ascii "\"temperature\":1.0,\"humidity\":2.0,\"accelX\":3.0,\"accelY\":4.0,\"accelZ\":5.0")
    (ascii "\x7b\"temperature\":1.0,\"hum")
    (ascii "idity\":2.0,\"accelX\":3.0,\"accelY\":4.0,\"accelZ\":5.0\x7d")
    wf_init rfl (by decide) (by decide) (by decide) (by decide)
  ⟨h.1, h.2.2.2.2.2.2.2.1.trans (by decide)⟩

/-! ### The decimal conversion behind a comma -/

theorem takeWhile_isdigit_comma (s r : List Byte) :
    (s ++ 44 :: r).takeWhile isdigit = s.takeWhile isdigit := by
  induction s with
  | nil => simp [List.takeWhile, isdigit]
  | cons b bs ih =>
    by_cases hb : isdigit b = true
    · simp [List.takeWhile_cons, hb, ih]
    · simp [List.takeWhile_cons, hb]

theorem dropWhile_isdigit_comma (s r : List Byte) :
    (s ++ 44 :: r).dropWhile isdigit = s.dropWhile isdigit ++ 44 :: r := by
  induction s with
  | nil => simp [List.dropWhile, isdigit]
  | cons b bs ih =>
    by_cases hb : isdigit b = true
    · simp [List.dropWhile_cons, hb, ih]
    · simp [List.dropWhile_cons, hb]

theorem scanSign_comma (s r : List Byte) :
    scanSign (s ++ 44 :: r) = ((scanSign s).1, (scanSign s).2 ++ 44 :: r) := by
  cases s with
  | nil => simp [scanSign]
  | cons b bs =>
    by_cases hb : b = 43 ∨ b = 45
    · simp [scanSign, hb]
    · simp [scanSign, hb]

theorem scanExponent_comma (s r : List Byte) :
    scanExponent (s ++ 44 :: r) = ((scanExponent s).1, (scanExponent s).2 ++ 44 :: r) := by
  cases s with
  | nil => simp [scanExponent]
  | cons b bs =>
    by_cases hb : b = 101 ∨ b = 69
    · simp only [List.cons_append, scanExponent, hb, if_true, scanSign_comma,
        takeWhile_isdigit_comma, dropWhile_isdigit_comma]
      by_cases hd : (List.takeWhile isdigit (scanSign bs).2).isEmpty = true
      · simp [hd]
      · simp [hd]
    · simp [scanExponent, hb]

/-- A comma behind the text does not change what the decimal conversion reads. -/
theorem scanDecimal_comma (t r : List Byte) :
    scanDecimal (t ++ 44 :: r)
      = (scanDecimal t).map (fun p => (p.1, p.2 ++ 44 :: r)) := by
  unfold scanDecimal
  simp only [scanSign_comma, takeWhile_isdigit_comma, dropWhile_isdigit_comma]
  cases hr : List.dropWhile isdigit (scanSign t).2 with
  | nil =>
    simp only [List.nil_append]
    by_cases hc : (List.takeWhile isdigit (scanSign t).2).isEmpty = true
    · simp [hc]
    · simp [hc, scanExponent, scanExponent_comma [] r]
  | cons b rest =>
    by_cases hb : b = 46
    · simp only [List.cons_append, hb, if_true, takeWhile_isdigit_comma,
        dropWhile_isdigit_comma, scanExponent_comma]
      split <;> simp
    · simp only [List.cons_append, hb, if_false]
      have := scanExponent_comma (b :: rest) r
      simp only [List.cons_append] at this
      rw [this]
      split <;> simp

/-- A text that the decimal conversion reads in full is a number of the
decimal operations, its value being the text itself. -/
theorem decimal_isNumber (t : List Byte) (hbytes : ∀ b ∈ t, b ≠ RBRACE ∧ b ≠ NUL)
    (hhead : t.head?.map isspace = some false)
    (hscan : scanDecimal t = some (t, [])) : IsNumber decimalOps t t := by
  refine ⟨hbytes, ?_⟩
  intro rest hrest
  cases t with
  | nil => simp at hhead
  | cons b t1 =>
    have hb : isspace b = false := by simpa using hhead
    have hdrop : ((b :: t1) ++ rest).dropWhile isspace = (b :: t1) ++ rest := by
      simp [List.dropWhile_cons, hb]
    refine ⟨by rw [hdrop]; simp, ?_⟩
    rw [hdrop]
    show scanDecimal ((b :: t1) ++ rest) = some (b :: t1, rest)
    rcases hrest with rfl | hrest
    · simpa using hscan
    · cases rest with
      | nil => simp at hrest
      | cons c r =>
        have hc : c = 44 := by simpa using hrest
        subst hc
        rw [scanDecimal_comma, hscan]
        simp

theorem KEY_temperature_eq : KEY_temperature = LBRACE :: ascii "\"temperature\":" := by
  decide

/-- C7: when one poll delivers to an empty buffer the wire record built from
five number texts t, h, x, y, z (at most 255 bytes in all), the publication
cycle writes the value of t to `temperature`, of h to `humidity`, of x to
`accelerationX`, of y to `accelerationY` and of z to `accelerationZ`, in this
order and with no value under another name. -/
theorem C7_publishes_each_field {F : Type} (L : FloatOps F) (st : SerialState)
    (t h x y z : List Byte) (vt vh vx vy vz : F)
    (hwf : WellFormed st) (hempty : st.bufferIndex = 0)
    (ht : IsNumber L t vt) (hh : IsNumber L h vh) (hx : IsNumber L x vx)
    (hy : IsNumber L y vy) (hz : IsNumber L z vz)
    (hlen : (wireFrame t h x y z).length ≤ 255) :
    (updateValuesCallback L st (.readOk (wireFrame t h x y z))).writes
      = [("temperature", vt), ("humidity", vh), ("accelerationX", vx),
         ("accelerationY", vy), ("accelerationZ", vz)] := by
  have hframe : wireFrame t h x y z
      = [] ++ LBRACE :: (ascii "\"temperature\":" ++ t ++ KEY_humidity ++ h ++ KEY_accelX
          ++ x ++ KEY_accelY ++ y ++ KEY_accelZ ++ z) ++ RBRACE :: [] := by
    simp [wireFrame, KEY_temperature_eq]
  have hroom : st.bufferIndex + (wireFrame t h x y z).length < st.buffer.length := by
    rw [hwf.1, hempty]; simp only [sizeof_buffer]; omega
  have hshape : filled st (wireFrame t h x y z)
      = [] ++ LBRACE :: (ascii "\"temperature\":" ++ t ++ KEY_humidity ++ h ++ KEY_accelX
          ++ x ++ KEY_accelY ++ y ++ KEY_accelZ ++ z) ++ RBRACE :: [] := by
    rw [← hframe]; simp [filled, hempty]
  have hk0 : ∀ b ∈ ascii "\"temperature\":", b ≠ RBRACE ∧ b ≠ NUL := by decide
  have hk1 : ∀ b ∈ KEY_humidity, b ≠ RBRACE ∧ b ≠ NUL := by decide
  have hk2 : ∀ b ∈ KEY_accelX, b ≠ RBRACE ∧ b ≠ NUL := by decide
  have hk3 : ∀ b ∈ KEY_accelY, b ≠ RBRACE ∧ b ≠ NUL := by decide
  have hk4 : ∀ b ∈ KEY_accelZ, b ≠ RBRACE ∧ b ≠ NUL := by decide
  have hbody : ∀ b ∈ ascii "\"temperature\":" ++ t ++ KEY_humidity ++ h ++ KEY_accelX
      ++ x ++ KEY_accelY ++ y ++ KEY_accelZ ++ z, b ≠ RBRACE ∧ b ≠ NUL := by
    intro b hb
    simp only [List.mem_append] at hb
    rcases hb with ((((((((hb | hb) | hb) | hb) | hb) | hb) | hb) | hb) | hb) | hb
    · exact hk0 b hb
    · exact ht.1 b hb
    · exact hk1 b hb
    · exact hh.1 b hb
    · exact hk2 b hb
    · exact hx.1 b hb
    · exact hk3 b hb
    · exact hy.1 b hb
    · exact hk4 b hb
    · exact hz.1 b hb
  have hnil : ∀ b ∈ ([] : List Byte), b ≠ LBRACE ∧ b ≠ RBRACE ∧ b ≠ NUL := by
    intro b hb; cases hb
  have hmatch : MatchesKeys L (LBRACE :: (ascii "\"temperature\":" ++ t ++ KEY_humidity ++ h
      ++ KEY_accelX ++ x ++ KEY_accelY ++ y ++ KEY_accelZ ++ z)) [vt, vh, vx, vy, vz] := by
    refine ⟨vt, vh, vx, vy, vz,
      t ++ (KEY_humidity ++ (h ++ (KEY_accelX ++ (x ++ (KEY_accelY ++ (y ++ (KEY_accelZ ++ z))))))),
      h ++ (KEY_accelX ++ (x ++ (KEY_accelY ++ (y ++ (KEY_accelZ ++ z))))),
      x ++ (KEY_accelY ++ (y ++ (KEY_accelZ ++ z))),
      y ++ (KEY_accelZ ++ z), z, [], rfl, ?_, ?_, ?_, ?_, ?_, ?_⟩
    · simp [KEY_temperature_eq]
    · exact ht.2 _ (Or.inr rfl)
    · exact hh.2 _ (Or.inr rfl)
    · exact hx.2 _ (Or.inr rfl)
    · exact hy.2 _ (Or.inr rfl)
    · simpa using hz.2 [] (Or.inl rfl)
  simp only [updateValuesCallback]
  rw [readOk_extract L st _ _ [] _ [] hroom hshape hnil hbody, sscanf_of_matches L _ _ hmatch]
  rfl

/-- C7 (witness): scenario 1, with the decimal conversion. -/
theorem C7_witness :
    wireFrame (ascii "23.5") (ascii "40.0") (ascii "0.1") (ascii "-0.2") (ascii "9.8")
      = ascii
        "\x7b\"temperature\":23.5,\"humidity\":40.0,\"accelX\":0.1,\"accelY\":-0.2,\"accelZ\":9.8\x7d" ∧
    (updateValuesCallback decimalOps SerialState.init
      (.readOk (wireFrame (ascii "23.5") (ascii "40.0") (ascii "0.1") (ascii "-0.2")
        (ascii "9.8")))).writes
      = [("temperature", ascii "23.5"), ("humidity", ascii "40.0"),
         ("accelerationX", ascii "0.1"), ("accelerationY", ascii "-0.2"),
         ("accelerationZ", ascii "9.8")] :=
  ⟨by decide, C7_publishes_each_field decimalOps SerialState.init
    (ascii "23.5") (ascii "40.0") (ascii "0.1") (ascii "-0.2") (ascii "9.8")
    (ascii "23.5") (ascii "40.0") (ascii "0.1") (ascii "-0.2") (ascii "9.8")
    wf_init rfl
    (decimal_isNumber _ (by decide) (by decide) (by decide))
    (decimal_isNumber _ (by decide) (by decide) (by decide))
    (decimal_isNumber _ (by decide) (by decide) (by decide))
    (decimal_isNumber _ (by decide) (by decide) (by decide))
    (decimal_isNumber _ (by decide) (by decide) (by decide))
    (by decide)⟩

/-! ### A stray closing brace -/

/-- With a stray `}` in the retained bytes the two searches never give a start
before an end, whatever is appended. -/
theorem stray_no_frame (st : SerialState) (bytes : List Byte) (hstray : StrayBrace st)
    (a b : Nat) (ha : strchr (filled st bytes) LBRACE = some a)
    (hb : strchr (filled st bytes) RBRACE = some b) : ¬ b > a := by
  obtain ⟨pre, post, hk, hpre⟩ := hstray
  have hf : filled st bytes = pre ++ RBRACE :: (post ++ bytes) := by
    simp [filled, hk]
  rw [hf] at ha hb
  have h1 := (strchr_some _ _ a ha).1
  have h2 := (strchr_some _ _ b hb).2
  have hmid : (pre ++ RBRACE :: (post ++ bytes))[pre.length]? = some RBRACE := by
    rw [List.getElem?_append_right (Nat.le_refl _)]; simp
  intro hab
  rcases Nat.lt_trichotomy a pre.length with hlt | heq | hgt
  · rw [List.getElem?_append_left hlt] at h1
    exact (hpre _ (List.getElem?_mem h1)).1 rfl
  · rw [heq, hmid] at h1
    exact absurd h1 (by decide)
  · obtain ⟨x, hx, hne, -⟩ := h2 pre.length (by omega)
    rw [hmid] at hx
    cases hx
    exact hne rfl

/-- One invocation on a state with a stray `}`. -/
theorem stray_step {F : Type} (L : FloatOps F) (st : SerialState) (out : Outputs F)
    (ev : PortEvent) (hwf : WellFormed st) (hstray : StrayBrace st)
    (hadm : admissible st ev) :
    (∀ text, Printed.receivedData text ∉ (readArduinoData L st out ev).printed) ∧
    (readArduinoData L st out ev).out = out ∧
    (((readArduinoData L st out ev).printed = [.bufferOverflow] ∧
        (readArduinoData L st out ev).state.bufferIndex = 0 ∧
        ∃ bytes, ev = .readOk bytes ∧ st.bufferIndex + bytes.length = 255) ∨
      (Printed.bufferOverflow ∉ (readArduinoData L st out ev).printed ∧
        StrayBrace (readArduinoData L st out ev).state ∧
        ∀ bytes, ev = .readOk bytes → st.bufferIndex + bytes.length < 255)) := by
  cases ev with
  | openFails =>
    refine ⟨by simp [readArduinoData], rfl, Or.inr ⟨by simp [readArduinoData], hstray, ?_⟩⟩
    intro bytes h; cases h
  | readFails =>
    refine ⟨by simp [readArduinoData], rfl, Or.inr ⟨by simp [readArduinoData], hstray, ?_⟩⟩
    intro bytes h; cases h
  | readOk bytes =>
    have hroom := readOk_room st bytes hwf hadm
    have hlenB := hwf.1
    simp only [sizeof_buffer] at hlenB
    rw [readOk_noframe L st out bytes hroom (stray_no_frame st bytes hstray)]
    rcases overflowCheck_cases (terminated st bytes) (st.bufferIndex + bytes.length) out
      with ⟨hge, e⟩ | ⟨hlt, e⟩
    · rw [e]
      simp only [sizeof_buffer] at hge
      refine ⟨by simp, rfl, Or.inl ⟨rfl, rfl, bytes, rfl, by omega⟩⟩
    · rw [e]
      simp only [sizeof_buffer] at hlt
      refine ⟨by simp, rfl, Or.inr ⟨by simp, ?_, ?_⟩⟩
      · obtain ⟨pre, post, hk, hpre⟩ := hstray
        refine ⟨pre, post ++ bytes, ?_, hpre⟩
        show (terminated st bytes).take (st.bufferIndex + bytes.length) = _
        rw [terminated_take st bytes hroom]
        simp [filled, hk]
      · intro bytes2 h
        cases h
        exact hlt

theorem admissibleRun_append {F : Type} (L : FloatOps F) (evs : List PortEvent)
    (ev : PortEvent) :
    ∀ st, admissibleRun L st (evs ++ [ev]) →
      admissibleRun L st evs ∧ admissible (run L st evs) ev := by
  induction evs with
  | nil => intro st h; exact ⟨trivial, h.1⟩
  | cons e es ih =>
    intro st h
    obtain ⟨h1, h2⟩ := ih _ h.2
    exact ⟨⟨h.1, h1⟩, h2⟩

/-- As long as no invocation prints the overflow line, the stray `}` stays. -/
theorem stray_run {F : Type} (L : FloatOps F) (evs : List PortEvent) :
    ∀ st, WellFormed st → StrayBrace st → admissibleRun L st evs →
      (∀ p ∈ printedRun L st evs, Printed.bufferOverflow ∉ p) →
      WellFormed (run L st evs) ∧ StrayBrace (run L st evs) := by
  induction evs with
  | nil => intro st hwf hs _ _; exact ⟨hwf, hs⟩
  | cons ev evs ih =>
    intro st hwf hs hadm hno
    have hstep := stray_step L st ⟨L.zero, L.zero, L.zero, L.zero, L.zero⟩ ev hwf hs hadm.1
    have hp : Printed.bufferOverflow ∉ (readArduinoData L st
        ⟨L.zero, L.zero, L.zero, L.zero, L.zero⟩ ev).printed :=
      fun hm => hno _ (List.mem_cons_self _ _) (List.mem_append_left _ hm)
    have hs2 : StrayBrace (step L st ev) := by
      rw [step_eq L st ⟨L.zero, L.zero, L.zero, L.zero, L.zero⟩]
      rcases hstep.2.2 with ⟨h1, -, -⟩ | ⟨-, h2, -⟩
      · rw [h1] at hp; simp at hp
      · exact h2
    exact ih _ (step_wf L st ev hwf hadm.1) hs2 hadm.2
      (fun p hpm => hno p (List.mem_cons_of_mem _ hpm))

/-- C10: take a state (256-byte buffer, fill-length at most 254) whose
retained bytes hold a `}` with neither `{` nor NUL before it, then any
admissible invocations `evs` none of which printed the overflow line, then one
more invocation `ev`. In that invocation no frame is received and no output
field changes; and either it is the overflow reset (the fill-length reached
255, the overflow line is printed and the fill-length is 0 afterwards), or the
fill-length is still below 255 and the stray `}` is still in the buffer. -/
theorem C10_stray_brace_blocks {F : Type} (L : FloatOps F) (st : SerialState)
    (evs : List PortEvent) (ev : PortEvent) (out : Outputs F)
    (hwf : WellFormed st) (hstray : StrayBrace st)
    (hadm : admissibleRun L st (evs ++ [ev]))
    (hnoreset : ∀ p ∈ printedRun L st evs, Printed.bufferOverflow ∉ p) :
    (∀ text, Printed.receivedData text ∉ (readArduinoData L (run L st evs) out ev).printed) ∧
    (readArduinoData L (run L st evs) out ev).out = out ∧
    (((readArduinoData L (run L st evs) out ev).printed = [.bufferOverflow] ∧
        (readArduinoData L (run L st evs) out ev).state.bufferIndex = 0 ∧
        ∃ bytes, ev = .readOk bytes ∧ (run L st evs).bufferIndex + bytes.length = 255) ∨
      (Printed.bufferOverflow ∉ (readArduinoData L (run L st evs) out ev).printed ∧
        StrayBrace (readArduinoData L (run L st evs) out ev).state ∧
        ∀ bytes, ev = .readOk bytes → (run L st evs).bufferIndex + bytes.length < 255)) := by
  obtain ⟨hadm1, hadm2⟩ := admissibleRun_append L evs ev st hadm
  obtain ⟨hwf2, hs2⟩ := stray_run L evs st hwf hstray hadm1 hnoreset
  exact stray_step L (run L st evs) out ev hwf2 hs2 hadm2

set_option maxRecDepth 100000 in
/-- C10 (witness): the buffer holds a `}` and a line break; two polls then
each deliver the complete frame of scenario 1. Neither is received: in the
second of them the outputs are untouched. -/
theorem C10_witness :
    (∀ text, Printed.receivedData text ∉
      (readArduinoData decimalOps
        (run decimalOps (step decimalOps SerialState.init (.readOk (ascii "\x7d\r\n")))
          [.readOk (wireFrame (ascii "23.5") (ascii "40.0") (ascii "0.1") (ascii "-0.2")
            (ascii "9.8"))])
        ⟨[], [], [], [], []⟩
        (.readOk (wireFrame (ascii "23.5") (ascii "40.0") (ascii "0.1") (ascii "-0.2")
          (ascii "9.8")))).printed) ∧
    (readArduinoData decimalOps
      (run decimalOps (step decimalOps SerialState.init (.readOk (ascii "\x7d\r\n")))
        [.readOk (wireFrame (ascii "23.5") (ascii "40.0") (ascii "0.1") (ascii "-0.2")
          (ascii "9.8"))])
      ⟨[], [], [], [], []⟩
      (.readOk (wireFrame (ascii "23.5") (ascii "40.0") (ascii "0.1") (ascii "-0.2")
        (ascii "9.8")))).out = ⟨[], [], [], [], []⟩ :=
  have h := C10_stray_brace_blocks decimalOps
    (step decimalOps SerialState.init (.readOk (ascii "\x7d\r\n")))
    [.readOk (wireFrame (ascii "23.5") (ascii "40.0") (ascii "0.1") (ascii "-0.2")
      (ascii "9.8"))]
    (.readOk (wireFrame (ascii "23.5") (ascii "40.0") (ascii "0.1") (ascii "-0.2")
      (ascii "9.8")))
    ⟨[], [], [], [], []⟩
    (step_wf decimalOps SerialState.init _ wf_init (by decide))
    ⟨[], ascii "\r\n", by decide, by simp⟩
    (by simp only [List.cons_append, List.nil_append, admissibleRun]; decide)
    (by decide)
  ⟨h.1, h.2.1⟩

end ArduinoOPCUA
